import Mathlib

/-!
# ExtServo: a servo channel with timed moves, jitter filtering and idle power-down

A shallow embedding of `src/extservo.h`.

* `float` fields are carried as exact rationals (`ℚ`); rounding of IEEE
  arithmetic is outside this development.
* `uint32_t` fields are natural numbers; every operation that can leave the
  32-bit range is reduced modulo `2^32` explicitly.
* `long` values (the arguments of `map`) are integers reduced to the 32-bit
  two's-complement range after every operation.
* The hardware (servo, pins, serial port) is a trace of commands: every
  operation returns the new state together with the list of commands it
  issued, in order.
* The millisecond clock `millis()` is an argument `now` of the operations
  that read it.
-/

/-- Modulus of `uint32_t` arithmetic. -/
def U32 : Nat := 4294967296

/-- Unsigned 32-bit subtraction `a - b`. -/
def sub32 (a b : Nat) : Nat := (a % U32 + (U32 - b % U32)) % U32

/-- Unsigned 32-bit multiplication `a * b`. -/
def mul32 (a b : Nat) : Nat := (a * b) % U32

/-- Conversion of a float to an integer: the fractional part is discarded
(rounding toward zero). -/
def truncQ (x : ℚ) : Int := Int.tdiv x.num x.den

/-- The cast `(uint32_t) x` of a float: truncation toward zero, reduced
modulo `2^32`. For `0 ≤ x < 2^32` this is the integer part of `x`; C++ leaves
the cast undefined outside that range, where the reduction is one possible
outcome. -/
def toU32 (x : ℚ) : Nat := (truncQ x % (U32 : Int)).toNat

/-- Conversion of an `int` to `uint32_t`, as in the mixed comparisons of `track`. -/
def intToU32 (i : Int) : Nat := (i % (U32 : Int)).toNat

/-- Reduction of an integer to the 32-bit two's-complement range of `long`.
C++ leaves signed overflow and out-of-range float conversions undefined; the
reduction is what the 32-bit targets compute. -/
def wrapI32 (i : Int) : Int := (i + 2147483648) % 4294967296 - 2147483648

/-- The cast `(long) x` of a float, as taken when a float is passed to a
`long` parameter: truncation toward zero in the 32-bit signed range. -/
def toI32 (x : ℚ) : Int := wrapI32 (truncQ x)

/-- Arduino core `map(x, in_min, in_max, out_min, out_max)` on 32-bit `long`
arguments (library function, not part of the repository):
`(x - in_min) * (out_max - out_min) / (in_max - in_min) + out_min`
with division truncating toward zero, every operation in `long`. -/
def map (x in_min in_max out_min out_max : Int) : Int :=
  wrapI32 (Int.tdiv (wrapI32 (wrapI32 (x - in_min) * wrapI32 (out_max - out_min)))
      (wrapI32 (in_max - in_min)) + out_min)

/-- The build-time constant `MAX_ANALOG_IN`: `4095` when `ESP32` is defined,
`255` otherwise. -/
def MAX_ANALOG_IN (esp32 : Bool) : Nat := if esp32 then 4095 else 255

def DEBUG_MSGS : Nat := 0x01
def OUTPUT_IDLE : Nat := 0x02
def ENABLE_IDLE : Nat := 0x04

/-- The 32-bit complement `~m`. -/
def not32 (m : Nat) : Nat := 0xFFFFFFFF - m

inductive PinMode where
  | INPUT
  | OUTPUT
  deriving DecidableEq, Repr

/-- Lines sent to the serial port when the debug flag is set. -/
inductive Msg where
  | settingOutput
  | writing (v : Nat)
  | sleep
  deriving DecidableEq, Repr

/-- Commands issued to the hardware primitives. -/
inductive Cmd where
  | pinMode (pin : Int) (mode : PinMode)
  | setPeriodHertz (hz : Nat)
  | attach (pin : Int)
  | attachRange (pin : Int) (lo hi : Nat)
  | detach
  | servoWrite (v : Nat)
  | print (m : Msg)
  deriving DecidableEq, Repr

/-- The fields of `struct ExtServo` (the `Servo` member is represented by the
command trace). -/
structure ExtServo where
  status : Nat
  name : String
  input_pin : Int
  servo_pin : Int
  max_jitter : Nat
  last : Nat
  starting : ℚ
  target : ℚ
  current : ℚ
  step_amt : ℚ
  start : Nat
  timer : Nat
  idle_wait : Nat
  upper : ℚ
  lower : ℚ
  last_out : Nat
  deriving DecidableEq

namespace ExtServo

def get_debug (s : ExtServo) : Bool := (s.status &&& DEBUG_MSGS) == DEBUG_MSGS
def set_debug (s : ExtServo) : ExtServo := { s with status := s.status ||| DEBUG_MSGS }
def clr_debug (s : ExtServo) : ExtServo := { s with status := s.status &&& not32 DEBUG_MSGS }

def get_idle (s : ExtServo) : Bool := (s.status &&& OUTPUT_IDLE) == OUTPUT_IDLE
def set_idle (s : ExtServo) : ExtServo := { s with status := s.status ||| OUTPUT_IDLE }
def clr_idle (s : ExtServo) : ExtServo := { s with status := s.status &&& not32 OUTPUT_IDLE }

def get_idle_enable (s : ExtServo) : Bool := (s.status &&& ENABLE_IDLE) == ENABLE_IDLE
def set_idle_enable (s : ExtServo) : ExtServo := { s with status := s.status ||| ENABLE_IDLE }
def clr_idle_enable (s : ExtServo) : ExtServo := { s with status := s.status &&& not32 ENABLE_IDLE }

def range (s : ExtServo) : ℚ := if s.lower < s.upper then s.upper - s.lower else s.lower - s.upper

/-- The private method `write_current_to_servo`: flush the truncated position
to the servo when it differs from the last value written, waking the servo
first if it is idle. -/
def write_current_to_servo (s : ExtServo) : ExtServo × List Cmd :=
  if toU32 s.current ≠ s.last_out then
    let wake : Bool := s.get_idle_enable && s.get_idle
    let s1 : ExtServo := if wake then s.clr_idle else s
    let c1 : List Cmd :=
      if wake then
        [Cmd.pinMode s.servo_pin PinMode.OUTPUT, Cmd.attach s.servo_pin]
          ++ (if s1.get_debug then [Cmd.print Msg.settingOutput] else [])
      else []
    let s2 : ExtServo := { s1 with last_out := toU32 s1.current }
    (s2, c1 ++ [Cmd.servoWrite s2.last_out]
          ++ (if s2.get_debug then [Cmd.print (Msg.writing s2.last_out)] else []))
  else (s, [])

/-- The constructor. `now` is the clock reading, `esp32` selects the platform,
`JITTER_FILTER` is the build-time constant of that name (defined outside the
header), and `starting0` is the unspecified initial content of the field
`starting`, which the constructor does not assign. -/
def new (pin_servo pin_input : Int) (now : Nat) (esp32 : Bool) (JITTER_FILTER : ℚ)
    (starting0 : ℚ) : ExtServo :=
  { status := ENABLE_IDLE
    name := ""
    input_pin := pin_input
    servo_pin := pin_servo
    max_jitter := toU32 ((MAX_ANALOG_IN esp32 : ℚ) * JITTER_FILTER)
    last := 0
    starting := starting0
    target := 0
    current := 0
    step_amt := 0
    start := now
    timer := now
    idle_wait := 10
    upper := 0
    lower := 0
    last_out := 0 }

/-- The method `begin(hertz, lower, upper)`; it returns the new state and the
commands issued. -/
def begin (s : ExtServo) (hertz lower upper : Nat) : ExtServo × List Cmd :=
  let s1 := { s with lower := (lower : ℚ), upper := (upper : ℚ) }
  let c1 := if 0 ≤ s1.input_pin then [Cmd.pinMode s1.input_pin PinMode.INPUT] else []
  let c2 := [Cmd.setPeriodHertz hertz, Cmd.attachRange s1.servo_pin 500 2400]
  let s2 := if s1.get_idle_enable then s1.clr_idle else s1
  (s2, c1 ++ c2)

/-- The method `write(value, period)`, called at the clock reading `now`. -/
def write (s : ExtServo) (now : Nat) (value : ℚ) (period : ℚ) : ExtServo × List Cmd :=
  let s1 :=
    if toU32 s.target ≠ toU32 value ∨ toU32 s.target ≠ toU32 s.current then
      let a := { s with start := now, timer := now, target := value, starting := s.current }
      if period ≤ 0 then
        { a with current := value, step_amt := 0 }
      else
        let b := { a with timer := toU32 ((a.timer : ℚ) + period) }
        let c := { b with step_amt := (value - b.current) / period }
        { c with current := c.current + c.step_amt }
    else s
  s1.write_current_to_servo

/-- The method `update(wake)`, called at the clock reading `now`; the first
component is the returned `bool`. -/
def update (s : ExtServo) (now : Nat) (wake : Bool) : Bool × ExtServo × List Cmd :=
  if !wake && decide (s.current = s.target) then
    if s.get_idle_enable && !s.get_idle then
      let elapsed := sub32 now s.start
      if elapsed ≥ mul32 s.idle_wait 1000 then
        let s1 := s.set_idle
        (true, s1, [Cmd.detach, Cmd.pinMode s.servo_pin PinMode.INPUT]
                    ++ (if s1.get_debug then [Cmd.print Msg.sleep] else []))
      else (true, s, [])
    else (true, s, [])
  else
    if now ≥ s.timer then
      let s1 := { s with target := (toU32 s.target : ℚ), current := (toU32 s.target : ℚ) }
      let r := s1.write_current_to_servo
      (true, r.1, r.2)
    else
      let s1 := { s with current := s.starting + (sub32 now s.start : ℚ) * s.step_amt }
      let r := s1.write_current_to_servo
      (false, r.1, r.2)

/-- The method `track(period)`: `input` is the value returned by
`read_input()`, `now` the clock reading used by the nested `write`. -/
def track (s : ExtServo) (esp32 : Bool) (input : Int) (now : Nat) (period : Int) :
    ExtServo × List Cmd :=
  let inp := intToU32 input
  if inp ≠ s.last then
    if (s.last > inp ∧ sub32 s.last inp ≥ s.max_jitter)
        ∨ (inp > s.last ∧ sub32 inp s.last ≥ s.max_jitter) then
      let s1 := { s with last := inp }
      s1.write now
        ((map input 0 (MAX_ANALOG_IN esp32 : Int) (toI32 s1.lower) (toI32 s1.upper) : Int) : ℚ)
        (period : ℚ)
    else (s, [])
  else (s, [])

/-- Run `update()` (wake = false) once at each clock reading of `ts`, in
order: the final state and, for every call, its return value and the
commands it issued. -/
def updates (s : ExtServo) : List Nat → ExtServo × List (Bool × List Cmd)
  | [] => (s, [])
  | t :: ts =>
    let r := s.update t false
    let q := updates r.2.1 ts
    (q.1, (r.1, r.2.2) :: q.2)

/-- States a program can bring a channel into: construction followed by any
sequence of `begin`, `write`, `update`, `track` and flag set/clear calls, at
arbitrary 32-bit clock readings. -/
inductive Reachable : ExtServo → Prop where
  | new (pin_servo pin_input : Int) (now : Nat) (esp32 : Bool) (jf st0 : ℚ) :
      now < U32 → Reachable (ExtServo.new pin_servo pin_input now esp32 jf st0)
  | begin (s : ExtServo) (hertz lower upper : Nat) :
      Reachable s → Reachable (s.begin hertz lower upper).1
  | write (s : ExtServo) (now : Nat) (value period : ℚ) :
      Reachable s → now < U32 → Reachable (s.write now value period).1
  | update (s : ExtServo) (now : Nat) (wake : Bool) :
      Reachable s → now < U32 → Reachable (s.update now wake).2.1
  | track (s : ExtServo) (esp32 : Bool) (input : Int) (now : Nat) (period : Int) :
      Reachable s → now < U32 → Reachable (s.track esp32 input now period).1
  | set_debug (s : ExtServo) : Reachable s → Reachable s.set_debug
  | clr_debug (s : ExtServo) : Reachable s → Reachable s.clr_debug
  | set_idle (s : ExtServo) : Reachable s → Reachable s.set_idle
  | clr_idle (s : ExtServo) : Reachable s → Reachable s.clr_idle
  | set_idle_enable (s : ExtServo) : Reachable s → Reachable s.set_idle_enable
  | clr_idle_enable (s : ExtServo) : Reachable s → Reachable s.clr_idle_enable

/-- A freshly constructed channel used in the examples: servo on pin 13,
potentiometer on pin 34, built at clock reading 0 on an ESP32. -/
def fresh : ExtServo := ExtServo.new 13 34 0 true (1 / 50) 0

/-- A channel built with `JITTER_FILTER = 0` (jitter threshold 0) and
configured by `begin(50, 10, 20)`. -/
def unfiltered : ExtServo := ((ExtServo.new 13 34 0 true 0 0).begin 50 10 20).1

/-- The position writes (`servo.write`) contained in a command trace. -/
def servoWrites (l : List Cmd) : List Nat :=
  l.filterMap (fun c => match c with
    | Cmd.servoWrite v => some v
    | _ => none)

/-- A command trace without the serial debug lines. -/
def hardware (l : List Cmd) : List Cmd :=
  l.filter (fun c => match c with
    | Cmd.print _ => false
    | _ => true)

/-- One call of the public interface, with the clock reading or sensor value
it observes. -/
inductive Call where
  | begin (hertz lower upper : Nat)
  | write (now : Nat) (value period : ℚ)
  | update (now : Nat) (wake : Bool)
  | track (esp32 : Bool) (input : Int) (now : Nat) (period : Int)
  | set_debug
  | clr_debug
  | set_idle
  | clr_idle
  | set_idle_enable
  | clr_idle_enable

/-- Perform one call: the new state and the commands issued. -/
def step (s : ExtServo) : Call → ExtServo × List Cmd
  | Call.begin hertz lower upper => s.begin hertz lower upper
  | Call.write now value period => s.write now value period
  | Call.update now wake => ((s.update now wake).2.1, (s.update now wake).2.2)
  | Call.track esp32 input now period => s.track esp32 input now period
  | Call.set_debug => (s.set_debug, [])
  | Call.clr_debug => (s.clr_debug, [])
  | Call.set_idle => (s.set_idle, [])
  | Call.clr_idle => (s.clr_idle, [])
  | Call.set_idle_enable => (s.set_idle_enable, [])
  | Call.clr_idle_enable => (s.clr_idle_enable, [])

/-- Perform a sequence of calls in order: the final state and all commands
issued, in order. -/
def run (s : ExtServo) : List Call → ExtServo × List Cmd
  | [] => (s, [])
  | c :: cs => ((run (s.step c).1 cs).1, (s.step c).2 ++ (run (s.step c).1 cs).2)

/-- The call is one of `write`, `update`, `track`. -/
def Call.isMotion : Call → Bool
  | Call.write _ _ _ => true
  | Call.update _ _ => true
  | Call.track _ _ _ _ => true
  | _ => false

/-- Follow the servo attachment through a command trace, starting from
`attached`: `attach` sets it, `detach` clears it. The result is `none` as soon
as a position write is sent while the servo is detached. -/
def scanAttached (attached : Bool) : List Cmd → Option Bool
  | [] => some attached
  | Cmd.attach _ :: l => scanAttached true l
  | Cmd.attachRange _ _ _ :: l => scanAttached true l
  | Cmd.detach :: l => scanAttached false l
  | Cmd.servoWrite _ :: l => if attached then scanAttached attached l else none
  | Cmd.pinMode _ _ :: l => scanAttached attached l
  | Cmd.setPeriodHertz _ :: l => scanAttached attached l
  | Cmd.print _ :: l => scanAttached attached l

end ExtServo


/-! ## Arithmetic of the casts -/

theorem truncQ_eq_floor {x : ℚ} (hx : 0 ≤ x) : truncQ x = ⌊x⌋ := by
  unfold truncQ
  rw [Rat.floor_def]
  have hn : 0 ≤ x.num := Rat.num_nonneg.mpr hx
  rw [Int.tdiv_eq_ediv hn (Int.ofNat_nonneg _)]

namespace ExtServo

/-! ## Status flags -/

theorem get_debug_eq (s : ExtServo) : s.get_debug = s.status.testBit 0 := by
  have h := Nat.and_two_pow s.status 0
  unfold get_debug DEBUG_MSGS
  cases hb : s.status.testBit 0 <;> simp [hb] at h ⊢ <;> simp [h]

theorem get_idle_eq (s : ExtServo) : s.get_idle = s.status.testBit 1 := by
  have h := Nat.and_two_pow s.status 1
  unfold get_idle OUTPUT_IDLE
  cases hb : s.status.testBit 1 <;> simp [hb] at h ⊢ <;> simp [h]

theorem get_idle_enable_eq (s : ExtServo) : s.get_idle_enable = s.status.testBit 2 := by
  have h := Nat.and_two_pow s.status 2
  unfold get_idle_enable ENABLE_IDLE
  cases hb : s.status.testBit 2 <;> simp [hb] at h ⊢ <;> simp [h]

theorem get_idle_set_idle (s : ExtServo) : s.set_idle.get_idle = true := by
  have h : Nat.testBit 2 1 = true := by decide
  rw [get_idle_eq]
  simp [set_idle, OUTPUT_IDLE, Nat.testBit_or, h]

theorem get_idle_clr_idle (s : ExtServo) : s.clr_idle.get_idle = false := by
  have h : Nat.testBit 4294967293 1 = false := by decide
  rw [get_idle_eq]
  simp [clr_idle, OUTPUT_IDLE, not32, Nat.testBit_and, h]

theorem get_idle_enable_set_idle (s : ExtServo) :
    s.set_idle.get_idle_enable = s.get_idle_enable := by
  have h : Nat.testBit 2 2 = false := by decide
  rw [get_idle_enable_eq, get_idle_enable_eq]
  simp [set_idle, OUTPUT_IDLE, Nat.testBit_or, h]

theorem get_idle_enable_clr_idle (s : ExtServo) :
    s.clr_idle.get_idle_enable = s.get_idle_enable := by
  have h : Nat.testBit 4294967293 2 = true := by decide
  rw [get_idle_enable_eq, get_idle_enable_eq]
  simp [clr_idle, OUTPUT_IDLE, not32, Nat.testBit_and, h]

/-! ## The flush `write_current_to_servo` -/

theorem flush_noop (s : ExtServo) (h : toU32 s.current = s.last_out) :
    s.write_current_to_servo = (s, []) := by
  simp [write_current_to_servo, h]

/-- The flush on a waking channel: re-attach, then write. -/
theorem flush_wake (s : ExtServo) (hne : toU32 s.current ≠ s.last_out)
    (he : s.get_idle_enable = true) (hi : s.get_idle = true) :
    s.write_current_to_servo
      = ({ s.clr_idle with last_out := toU32 s.current },
          [Cmd.pinMode s.servo_pin PinMode.OUTPUT, Cmd.attach s.servo_pin]
            ++ (if s.clr_idle.get_debug then [Cmd.print Msg.settingOutput] else [])
            ++ [Cmd.servoWrite (toU32 s.current)]
            ++ (if s.clr_idle.get_debug then [Cmd.print (Msg.writing (toU32 s.current))]
                else [])) := by
  simp only [write_current_to_servo, hne, he, hi, ne_eq, not_false_eq_true, if_true,
    Bool.and_self]
  rfl

/-- The flush on an attached channel (or one without idle management): write only. -/
theorem flush_plain (s : ExtServo) (hne : toU32 s.current ≠ s.last_out)
    (h : (s.get_idle_enable && s.get_idle) = false) :
    s.write_current_to_servo
      = ({ s with last_out := toU32 s.current },
          [Cmd.servoWrite (toU32 s.current)]
            ++ (if s.get_debug then [Cmd.print (Msg.writing (toU32 s.current))] else [])) := by
  simp only [write_current_to_servo, hne, h, ne_eq, not_false_eq_true, if_true,
    Bool.false_eq_true, if_false, List.nil_append]
  rfl

theorem flush_state (s : ExtServo) :
    ∃ st, s.write_current_to_servo.1 = { s with status := st, last_out := toU32 s.current } := by
  by_cases h : toU32 s.current = s.last_out
  · refine ⟨s.status, ?_⟩
    rw [flush_noop s h, h]
  · by_cases hi : (s.get_idle_enable && s.get_idle) = true
    · rw [Bool.and_eq_true] at hi
      rw [flush_wake s h hi.1 hi.2]
      exact ⟨s.clr_idle.status, rfl⟩
    · rw [flush_plain s h (Bool.not_eq_true _ ▸ hi)]
      exact ⟨s.status, rfl⟩

theorem flush_last_out (s : ExtServo) :
    s.write_current_to_servo.1.last_out = toU32 s.current := by
  obtain ⟨st, h⟩ := flush_state s
  rw [h]

theorem flush_current (s : ExtServo) : s.write_current_to_servo.1.current = s.current := by
  obtain ⟨st, h⟩ := flush_state s
  rw [h]

theorem flush_target (s : ExtServo) : s.write_current_to_servo.1.target = s.target := by
  obtain ⟨st, h⟩ := flush_state s
  rw [h]

theorem flush_starting (s : ExtServo) : s.write_current_to_servo.1.starting = s.starting := by
  obtain ⟨st, h⟩ := flush_state s
  rw [h]

theorem flush_step_amt (s : ExtServo) : s.write_current_to_servo.1.step_amt = s.step_amt := by
  obtain ⟨st, h⟩ := flush_state s
  rw [h]

theorem flush_start (s : ExtServo) : s.write_current_to_servo.1.start = s.start := by
  obtain ⟨st, h⟩ := flush_state s
  rw [h]

theorem flush_timer (s : ExtServo) : s.write_current_to_servo.1.timer = s.timer := by
  obtain ⟨st, h⟩ := flush_state s
  rw [h]

end ExtServo

namespace ExtServo

/-! ## The three paths of `write` -/

theorem write_noop_path (s : ExtServo) (now : Nat) (value period : ℚ)
    (h1 : toU32 s.target = toU32 value) (h2 : toU32 s.target = toU32 s.current) :
    s.write now value period = s.write_current_to_servo := by
  unfold write
  rw [if_neg (not_or.mpr ⟨not_not.mpr h1, not_not.mpr h2⟩)]

theorem write_instant_path (s : ExtServo) (now : Nat) (value period : ℚ)
    (h : toU32 s.target ≠ toU32 value ∨ toU32 s.target ≠ toU32 s.current) (hp : period ≤ 0) :
    s.write now value period =
      ({ s with start := now, timer := now, target := value, starting := s.current,
                current := value, step_amt := 0 } : ExtServo).write_current_to_servo := by
  simp only [write, h, hp, if_true]

theorem write_timed_path (s : ExtServo) (now : Nat) (value period : ℚ)
    (h : toU32 s.target ≠ toU32 value ∨ toU32 s.target ≠ toU32 s.current) (hp : 0 < period) :
    s.write now value period =
      ({ s with start := now, timer := toU32 ((now : ℚ) + period), target := value,
                starting := s.current, step_amt := (value - s.current) / period,
                current := s.current + (value - s.current) / period } :
        ExtServo).write_current_to_servo := by
  simp only [write, h, not_le.mpr hp, if_true, if_false]

end ExtServo

namespace ExtServo

theorem write_last_out (s : ExtServo) (now : Nat) (value period : ℚ) :
    (s.write now value period).1.last_out = toU32 (s.write now value period).1.current := by
  unfold write
  rw [flush_last_out, flush_current]

/-- The settled branch of `update`: the state changes in `status` only. -/
theorem update_settled (s : ExtServo) (now : Nat) (hs : s.current = s.target) :
    (s.update now false).1 = true
    ∧ ((s.update now false).2.1 = s ∨ (s.update now false).2.1 = s.set_idle) := by
  unfold update
  simp only [Bool.not_false, Bool.true_and, hs, decide_True, if_true]
  split_ifs <;> simp

/-- The settled branch, idle power-down taken. -/
theorem update_settled_detach (s : ExtServo) (now : Nat) (hs : s.current = s.target)
    (he : s.get_idle_enable = true) (hi : s.get_idle = false)
    (ht : mul32 s.idle_wait 1000 ≤ sub32 now s.start) :
    s.update now false
      = (true, s.set_idle, [Cmd.detach, Cmd.pinMode s.servo_pin PinMode.INPUT]
          ++ (if s.set_idle.get_debug then [Cmd.print Msg.sleep] else [])) := by
  unfold update
  simp only [Bool.not_false, Bool.true_and, hs, decide_True, if_true, he, hi, ge_iff_le, ht]

/-- The settled branch, nothing to do. -/
theorem update_settled_stay (s : ExtServo) (now : Nat) (hs : s.current = s.target)
    (h : s.get_idle_enable = false ∨ s.get_idle = true
          ∨ sub32 now s.start < mul32 s.idle_wait 1000) :
    s.update now false = (true, s, []) := by
  unfold update
  simp only [Bool.not_false, Bool.true_and, hs, decide_True, if_true]
  rcases h with h | h | h
  · simp [h]
  · simp [h]
  · simp [not_le.mpr h]

/-- The moving branch at or after the end time: snap to the truncated target. -/
theorem update_snap (s : ExtServo) (now : Nat) (wake : Bool)
    (hm : wake = true ∨ s.current ≠ s.target) (ht : s.timer ≤ now) :
    s.update now wake
      = (true,
          ({ s with target := (toU32 s.target : ℚ), current := (toU32 s.target : ℚ) } :
            ExtServo).write_current_to_servo.1,
          ({ s with target := (toU32 s.target : ℚ), current := (toU32 s.target : ℚ) } :
            ExtServo).write_current_to_servo.2) := by
  unfold update
  have hc : (!wake && decide (s.current = s.target)) = false := by
    rcases hm with h | h
    · simp [h]
    · simp [h]
  simp only [hc, ge_iff_le, ht, if_true, Bool.false_eq_true, if_false]

/-- The moving branch before the end time: recompute from the elapsed time. -/
theorem update_interp (s : ExtServo) (now : Nat) (wake : Bool)
    (hm : wake = true ∨ s.current ≠ s.target) (ht : now < s.timer) :
    s.update now wake
      = (false,
          ({ s with current := s.starting + (sub32 now s.start : ℚ) * s.step_amt } :
            ExtServo).write_current_to_servo.1,
          ({ s with current := s.starting + (sub32 now s.start : ℚ) * s.step_amt } :
            ExtServo).write_current_to_servo.2) := by
  unfold update
  have hc : (!wake && decide (s.current = s.target)) = false := by
    rcases hm with h | h
    · simp [h]
    · simp [h]
  simp only [hc, ge_iff_le, not_le.mpr ht, if_false, Bool.false_eq_true]

theorem update_last_out (s : ExtServo) (now : Nat) (wake : Bool)
    (h : s.last_out = toU32 s.current) :
    (s.update now wake).2.1.last_out = toU32 (s.update now wake).2.1.current := by
  by_cases hm : wake = true ∨ s.current ≠ s.target
  · by_cases ht : s.timer ≤ now
    · rw [update_snap s now wake hm ht]
      simp only [flush_last_out, flush_current]
    · rw [update_interp s now wake hm (not_le.mp ht)]
      simp only [flush_last_out, flush_current]
  · have hw : wake = false := by
      cases wake
      · rfl
      · exact absurd (Or.inl rfl) hm
    have hs : s.current = s.target := by
      by_contra hne
      exact hm (Or.inr hne)
    subst hw
    rcases (update_settled s now hs).2 with e | e
    · rw [e]; exact h
    · rw [e]; exact h

/-- Readings `track` rejects leave the channel alone. -/
theorem track_reject (s : ExtServo) (esp32 : Bool) (input : Int) (now : Nat) (period : Int)
    (h : ¬ ((s.last > intToU32 input ∧ sub32 s.last (intToU32 input) ≥ s.max_jitter)
          ∨ (intToU32 input > s.last ∧ sub32 (intToU32 input) s.last ≥ s.max_jitter))) :
    s.track esp32 input now period = (s, []) := by
  unfold track
  simp only [h, if_false, ite_self]

/-- Readings `track` accepts are recorded and forwarded to `write`. -/
theorem track_accept (s : ExtServo) (esp32 : Bool) (input : Int) (now : Nat) (period : Int)
    (h : (s.last > intToU32 input ∧ sub32 s.last (intToU32 input) ≥ s.max_jitter)
          ∨ (intToU32 input > s.last ∧ sub32 (intToU32 input) s.last ≥ s.max_jitter)) :
    s.track esp32 input now period
      = ({ s with last := intToU32 input } : ExtServo).write now
          ((map input 0 (MAX_ANALOG_IN esp32 : Int) (toI32 s.lower) (toI32 s.upper) : Int) : ℚ)
          (period : ℚ) := by
  unfold track
  have hne : intToU32 input ≠ s.last := by
    rcases h with h | h <;> omega
  simp only [hne, ne_eq, not_false_eq_true, if_true, h]

theorem track_last_out (s : ExtServo) (esp32 : Bool) (input : Int) (now : Nat) (period : Int)
    (h : s.last_out = toU32 s.current) :
    (s.track esp32 input now period).1.last_out
      = toU32 (s.track esp32 input now period).1.current := by
  by_cases hc : (s.last > intToU32 input ∧ sub32 s.last (intToU32 input) ≥ s.max_jitter)
          ∨ (intToU32 input > s.last ∧ sub32 (intToU32 input) s.last ≥ s.max_jitter)
  · rw [track_accept s esp32 input now period hc]
    exact write_last_out _ _ _ _
  · rw [track_reject s esp32 input now period hc]
    exact h

theorem begin_last_out (s : ExtServo) (hertz lower upper : Nat)
    (h : s.last_out = toU32 s.current) :
    (s.begin hertz lower upper).1.last_out = toU32 (s.begin hertz lower upper).1.current := by
  unfold begin
  by_cases he : ({ s with lower := (lower : ℚ), upper := (upper : ℚ) } : ExtServo).get_idle_enable
      = true
  · simp only [he, if_true]
    exact h
  · simp only [he, if_false]
    exact h

theorem reachable_last_out (s : ExtServo) (h : Reachable s) : s.last_out = toU32 s.current := by
  induction h with
  | new pin_servo pin_input now esp32 jf st0 _ => simp [new, toU32, truncQ, U32]
  | begin s hertz lower upper _ ih => exact begin_last_out _ _ _ _ ih
  | write s now value period _ _ _ => exact write_last_out _ _ _ _
  | update s now wake _ _ ih => exact update_last_out _ _ _ ih
  | track s esp32 input now period _ _ ih => exact track_last_out _ _ _ _ _ ih
  | set_debug s _ ih => exact ih
  | clr_debug s _ ih => exact ih
  | set_idle s _ ih => exact ih
  | clr_idle s _ ih => exact ih
  | set_idle_enable s _ ih => exact ih
  | clr_idle_enable s _ ih => exact ih

/-- C5. No-op write: in every state reachable from construction through
`begin`/`write`/`update`/`track` (and flag) calls, if the integer-truncated
`value` equals the integer-truncated `target` and the integer-truncated
`current`, then `write(value, period)` returns the channel unchanged in
every field and issues no command at all, for every period and clock reading. -/
theorem write_noop_unchanged (s : ExtServo) (hr : Reachable s) (now : Nat) (value period : ℚ)
    (h1 : toU32 value = toU32 s.target) (h2 : toU32 value = toU32 s.current) :
    s.write now value period = (s, []) := by
  rw [write_noop_path s now value period h1.symm (h1.symm.trans h2)]
  exact flush_noop s (reachable_last_out s hr).symm

/-- Witness for C5: rewriting the position 0 of a fresh channel. -/
theorem write_noop_unchanged_witness :
    Reachable fresh ∧ toU32 (0 : ℚ) = toU32 fresh.target
    ∧ toU32 (0 : ℚ) = toU32 fresh.current ∧ fresh.write 7 0 250 = (fresh, []) :=
  ⟨Reachable.new 13 34 0 true (1 / 50) 0 (by decide), by decide, by decide,
    write_noop_unchanged fresh (Reachable.new 13 34 0 true (1 / 50) 0 (by decide)) 7 0 250
      (by decide) (by decide)⟩

end ExtServo

namespace ExtServo

theorem intToU32_of_nonneg {i : Int} (h0 : 0 ≤ i) (h1 : i < (U32 : Int)) :
    (intToU32 i : Int) = i := by
  unfold intToU32
  unfold U32 at h1 ⊢
  push_cast at h1 ⊢
  omega

theorem MAX_ANALOG_IN_lt (esp32 : Bool) : MAX_ANALOG_IN esp32 < 4096 := by
  cases esp32 <;> decide

/-- C10. Jitter rejection: for every channel state, every raw reading `r` in
`[0, MAX_ANALOG_IN]` and every period, if `|r - last| < max_jitter` then
`track(period)` returns the channel unchanged in every field and issues no
command. -/
theorem track_jitter_rejected (s : ExtServo) (esp32 : Bool) (r : Int) (now : Nat) (period : Int)
    (h0 : 0 ≤ r) (h1 : r ≤ (MAX_ANALOG_IN esp32 : Int))
    (hj : |r - (s.last : Int)| < (s.max_jitter : Int)) :
    s.track esp32 r now period = (s, []) := by
  apply track_reject
  have hm := MAX_ANALOG_IN_lt esp32
  have hr : (intToU32 r : Int) = r := by
    apply intToU32_of_nonneg h0
    unfold U32
    push_cast
    omega
  have habs := abs_lt.mp hj
  unfold sub32 U32
  omega

theorem fresh_max_jitter : fresh.max_jitter = 81 := by
  norm_num [fresh, new, MAX_ANALOG_IN, toU32, truncQ, U32]
  rfl

/-- Witness for C10: a reading of 3 on a fresh channel, whose threshold is 81. -/
theorem track_jitter_rejected_witness :
    (0 : Int) ≤ 3 ∧ (3 : Int) ≤ (MAX_ANALOG_IN true : Int)
    ∧ |(3 : Int) - (fresh.last : Int)| < (fresh.max_jitter : Int)
    ∧ fresh.track true 3 0 20 = (fresh, []) :=
  ⟨by decide, by decide, by rw [fresh_max_jitter]; decide,
    track_jitter_rejected fresh true 3 0 20 (by decide) (by decide)
      (by rw [fresh_max_jitter]; decide)⟩

end ExtServo

namespace ExtServo

/-! ## Timed moves -/

/-- Distinct casts of the new value and the position put `write` on the restart path. -/
theorem restart_of_cast_ne (s : ExtServo) (v : ℚ) (hv : toU32 v ≠ toU32 s.current) :
    toU32 s.target ≠ toU32 v ∨ toU32 s.target ≠ toU32 s.current := by
  by_cases h : toU32 s.target = toU32 v
  · right
    rw [h]
    exact hv
  · left
    exact h

/-- The motion profile left by a timed `write` on the restart path. -/
theorem write_timed_fields (s : ExtServo) (now : Nat) (value period : ℚ)
    (h : toU32 s.target ≠ toU32 value ∨ toU32 s.target ≠ toU32 s.current) (hp : 0 < period) :
    (s.write now value period).1.current = s.current + (value - s.current) / period
    ∧ (s.write now value period).1.target = value
    ∧ (s.write now value period).1.starting = s.current
    ∧ (s.write now value period).1.step_amt = (value - s.current) / period
    ∧ (s.write now value period).1.start = now
    ∧ (s.write now value period).1.timer = toU32 ((now : ℚ) + period) := by
  rw [write_timed_path s now value period h hp]
  exact ⟨flush_current _, flush_target _, flush_starting _, flush_step_amt _, flush_start _,
    flush_timer _⟩

end ExtServo

namespace ExtServo

end ExtServo

namespace ExtServo

/-! ## Move completion -/

/-- In the settled branch `update` keeps position and target. -/
theorem update_settled_keeps (s : ExtServo) (now : Nat) (hs : s.current = s.target) :
    (s.update now false).1 = true
    ∧ (s.update now false).2.1.current = s.current
    ∧ (s.update now false).2.1.target = s.target := by
  obtain ⟨h1, h2⟩ := update_settled s now hs
  refine ⟨h1, ?_, ?_⟩
  · rcases h2 with e | e
    · rw [e]
    · rw [e]
      rfl
  · rcases h2 with e | e
    · rw [e]
    · rw [e]
      rfl

end ExtServo

namespace ExtServo

end ExtServo

namespace ExtServo

/-! ## Re-polling a move -/

end ExtServo

namespace ExtServo

end ExtServo

namespace ExtServo

/-! ## Position writes of one call -/

/-- The flush sends one position write when the truncated position changed, none otherwise. -/
theorem servoWrites_debug (c : Prop) [Decidable c] (m : Msg) :
    servoWrites (if c then [Cmd.print m] else []) = [] := by
  split_ifs <;> rfl

theorem servoWrites_append (a b : List Cmd) :
    servoWrites (a ++ b) = servoWrites a ++ servoWrites b := by
  unfold servoWrites
  exact List.filterMap_append _ _ _

theorem flush_servoWrites (s : ExtServo) :
    servoWrites s.write_current_to_servo.2
      = if toU32 s.current ≠ s.last_out then [toU32 s.current] else [] := by
  by_cases h : toU32 s.current = s.last_out
  · rw [flush_noop s h]
    simp [h, servoWrites]
  · rw [if_pos h]
    by_cases hi : (s.get_idle_enable && s.get_idle) = true
    · rw [Bool.and_eq_true] at hi
      rw [flush_wake s h hi.1 hi.2]
      simp only [servoWrites_append, servoWrites_debug]
      rfl
    · rw [flush_plain s h (Bool.not_eq_true _ ▸ hi)]
      simp only [servoWrites_append, servoWrites_debug]
      rfl

theorem flush_servoWrites_length (s : ExtServo) :
    (servoWrites s.write_current_to_servo.2).length ≤ 1 := by
  rw [flush_servoWrites]
  split_ifs <;> simp

/-- After any `write` the truncated target is the truncated value. -/
theorem write_target_cast (s : ExtServo) (now : Nat) (value period : ℚ) :
    toU32 (s.write now value period).1.target = toU32 value := by
  by_cases hg : toU32 s.target ≠ toU32 value ∨ toU32 s.target ≠ toU32 s.current
  · by_cases hp : period ≤ 0
    · rw [write_instant_path s now value period hg hp, flush_target]
    · rw [(write_timed_fields s now value period hg (not_le.mp hp)).2.1]
  · rw [not_or, not_not, not_not] at hg
    rw [write_noop_path s now value period hg.1 hg.2, flush_target]
    exact hg.1

/-- After a `write` with `period ≤ 0` the truncated position is the truncated value. -/
theorem write_instant_current_cast (s : ExtServo) (now : Nat) (value period : ℚ)
    (hp : period ≤ 0) : toU32 (s.write now value period).1.current = toU32 value := by
  by_cases hg : toU32 s.target ≠ toU32 value ∨ toU32 s.target ≠ toU32 s.current
  · rw [write_instant_path s now value period hg hp, flush_current]
  · rw [not_or, not_not, not_not] at hg
    rw [write_noop_path s now value period hg.1 hg.2, flush_current]
    exact hg.2.symm.trans hg.1

/-- C6 (amended). Idempotent write: for every channel state, every value `v`
and every period `p` for which the first call leaves the integer-truncated
`current` equal to the integer-truncated `v` (in particular for every
`p ≤ 0`): calling `write(v, p)` twice at the same clock reading sends at most
one position write over the two calls together, and the second call changes
no field and issues no command. -/
theorem write_twice_suppressed (s : ExtServo) (now : Nat) (v p : ℚ)
    (h : p ≤ 0 ∨ toU32 (s.write now v p).1.current = toU32 v) :
    (s.write now v p).1.write now v p = ((s.write now v p).1, [])
    ∧ (servoWrites ((s.write now v p).2 ++ ((s.write now v p).1.write now v p).2)).length
        ≤ 1 := by
  have hc : toU32 (s.write now v p).1.current = toU32 v := by
    rcases h with h | h
    · exact write_instant_current_cast s now v p h
    · exact h
  have ht := write_target_cast s now v p
  have h2 : (s.write now v p).1.write now v p = ((s.write now v p).1, []) := by
    rw [write_noop_path _ now v p ht (ht.trans hc.symm)]
    exact flush_noop _ (write_last_out s now v p).symm
  refine ⟨h2, ?_⟩
  rw [h2]
  simp only [List.append_nil]
  unfold write
  exact flush_servoWrites_length _

/-- Witness for C6: `write(10, 0)` twice on a fresh channel. -/
theorem write_twice_suppressed_witness :
    ((0 : ℚ) ≤ 0 ∨ toU32 (fresh.write 0 10 0).1.current = toU32 (10 : ℚ))
    ∧ (fresh.write 0 10 0).1.write 0 10 0 = ((fresh.write 0 10 0).1, [])
    ∧ (servoWrites ((fresh.write 0 10 0).2 ++ ((fresh.write 0 10 0).1.write 0 10 0).2)).length
        ≤ 1 :=
  ⟨Or.inl le_rfl, write_twice_suppressed fresh 0 10 0 (Or.inl le_rfl)⟩

end ExtServo

namespace ExtServo

/-- Every `write` ends in the flush of a state that kept `status`, `last_out`
and the pins. -/
theorem write_eq_flush (s : ExtServo) (now : Nat) (value period : ℚ) :
    ∃ s1 : ExtServo, s.write now value period = s1.write_current_to_servo
      ∧ s1.last_out = s.last_out ∧ s1.status = s.status ∧ s1.servo_pin = s.servo_pin := by
  by_cases hg : toU32 s.target ≠ toU32 value ∨ toU32 s.target ≠ toU32 s.current
  · by_cases hp : period ≤ 0
    · exact ⟨_, write_instant_path s now value period hg hp, rfl, rfl, rfl⟩
    · exact ⟨_, write_timed_path s now value period hg (not_le.mp hp), rfl, rfl, rfl⟩
  · rw [not_or, not_not, not_not] at hg
    exact ⟨s, write_noop_path s now value period hg.1 hg.2, rfl, rfl, rfl⟩

/-- The position writes of one `write` call. -/
theorem write_servoWrites (s : ExtServo) (now : Nat) (value period : ℚ) :
    servoWrites (s.write now value period).2
      = if toU32 (s.write now value period).1.current ≠ s.last_out
        then [toU32 (s.write now value period).1.current] else [] := by
  obtain ⟨s1, h1, h2, _, _⟩ := write_eq_flush s now value period
  rw [h1, flush_servoWrites, flush_current, h2]

/-- Counterexample to C6 as stated: on a fresh channel (reachable, position
0), `write(100, 10)` twice at the same clock reading. The first call steps to
10 and writes 10; the move is still in progress, so the second call restarts
it from 10, steps to 19 and writes 19: two position writes, and the second
call is not suppressed. -/
theorem write_twice_sends_two :
    Reachable fresh
    ∧ servoWrites ((fresh.write 0 100 10).2 ++ ((fresh.write 0 100 10).1.write 0 100 10).2)
        = [10, 19]
    ∧ ((fresh.write 0 100 10).1.write 0 100 10).1.current = 19
    ∧ (fresh.write 0 100 10).1.current = 10 := by
  have hcur : fresh.current = 0 := rfl
  have hlast : fresh.last_out = 0 := rfl
  have e10 : toU32 (10 : ℚ) = 10 := by decide
  have e19 : toU32 (19 : ℚ) = 19 := by decide
  have e100 : toU32 (100 : ℚ) = 100 := by decide
  have hA := write_timed_fields fresh 0 100 10 (restart_of_cast_ne fresh 100 (by decide))
    (by norm_num)
  have hAc : (fresh.write 0 100 10).1.current = 10 := by
    rw [hA.1, hcur]
    norm_num
  have hAt : (fresh.write 0 100 10).1.target = 100 := hA.2.1
  have hAl : (fresh.write 0 100 10).1.last_out = 10 := by
    rw [write_last_out, hAc, e10]
  have hB := write_timed_fields (fresh.write 0 100 10).1 0 100 10
    (Or.inr (by rw [hAt, hAc, e10, e100]; decide)) (by norm_num)
  have hBc : ((fresh.write 0 100 10).1.write 0 100 10).1.current = 19 := by
    rw [hB.1, hAc]
    norm_num
  refine ⟨Reachable.new 13 34 0 true (1 / 50) 0 (by decide), ?_, hBc, hAc⟩
  rw [servoWrites_append, write_servoWrites, write_servoWrites, hAc, hBc, hAl, hlast, e10, e19]
  decide

end ExtServo

namespace ExtServo

/-! ## Instant moves -/

/-- C7 (amended). Instant move: for every channel state and every value `v`
such that `write(v, 0)` is not a no-op (the integer-truncated `v`, `target`
and `current` are not all equal) or the channel already rests at `v`: after
`write(v, 0)` the field `current` equals `v`, and the next `update()`
(wake = false), at any clock reading, returns `true` and leaves `current`
unchanged. -/
theorem instant_move (s : ExtServo) (now t : Nat) (v : ℚ)
    (h : (toU32 s.target ≠ toU32 v ∨ toU32 s.target ≠ toU32 s.current)
          ∨ (s.current = v ∧ s.target = v)) :
    (s.write now v 0).1.current = v
    ∧ ((s.write now v 0).1.update t false).1 = true
    ∧ ((s.write now v 0).1.update t false).2.1.current = (s.write now v 0).1.current := by
  have hct : (s.write now v 0).1.current = v ∧ (s.write now v 0).1.target = v := by
    by_cases hg : toU32 s.target ≠ toU32 v ∨ toU32 s.target ≠ toU32 s.current
    · rw [write_instant_path s now v 0 hg le_rfl, flush_current, flush_target]
      exact ⟨rfl, rfl⟩
    · have hr := h.resolve_left hg
      rw [not_or, not_not, not_not] at hg
      rw [write_noop_path s now v 0 hg.1 hg.2, flush_current, flush_target]
      exact hr
  have hs : (s.write now v 0).1.current = (s.write now v 0).1.target := by
    rw [hct.1, hct.2]
  obtain ⟨h1, h2, _⟩ := update_settled_keeps _ t hs
  exact ⟨hct.1, h1, h2⟩

/-- Witness for C7: `write(10, 0)` on a fresh channel. -/
theorem instant_move_witness :
    ((toU32 fresh.target ≠ toU32 (10 : ℚ) ∨ toU32 fresh.target ≠ toU32 fresh.current)
      ∨ (fresh.current = 10 ∧ fresh.target = 10))
    ∧ (fresh.write 0 10 0).1.current = 10
    ∧ ((fresh.write 0 10 0).1.update 3 false).1 = true
    ∧ ((fresh.write 0 10 0).1.update 3 false).2.1.current = (fresh.write 0 10 0).1.current :=
  ⟨Or.inl (Or.inl (by decide)), instant_move fresh 0 3 10 (Or.inl (Or.inl (by decide)))⟩

/-- Counterexample to C7 as stated: a channel brought to rest at 10.5 by
`write(10.5, 0)` receives `write(10, 0)`. The truncated value, target and
position are all 10, so the write is a no-op and `current` stays 10.5, not
10. -/
theorem instant_move_noop_keeps_position :
    (0 : ℚ) ≤ 10
    ∧ ((fresh.write 0 (21 / 2) 0).1.write 5 10 0).1.current = 21 / 2
    ∧ (21 / 2 : ℚ) ≠ 10 := by
  have e21 : toU32 (21 / 2 : ℚ) = 10 := by
    norm_num [toU32, truncQ, U32]
    rfl
  have e10 : toU32 (10 : ℚ) = 10 := by decide
  have hA : fresh.write 0 (21 / 2) 0 = _ :=
    write_instant_path fresh 0 (21 / 2) 0 (Or.inl (by rw [e21]; decide)) le_rfl
  have hAc : (fresh.write 0 (21 / 2) 0).1.current = 21 / 2 := by
    rw [hA, flush_current]
  have hAt : (fresh.write 0 (21 / 2) 0).1.target = 21 / 2 := by
    rw [hA, flush_target]
  refine ⟨by norm_num, ?_, by norm_num⟩
  rw [write_noop_path _ 5 10 0 (by rw [hAt, e21, e10]) (by rw [hAt, hAc]), flush_current, hAc]

end ExtServo

namespace ExtServo

/-! ## Idle power-down -/

theorem updates_cons (s : ExtServo) (t : Nat) (ts : List Nat) :
    s.updates (t :: ts)
      = (((s.update t false).2.1.updates ts).1,
          ((s.update t false).1, (s.update t false).2.2)
            :: ((s.update t false).2.1.updates ts).2) := rfl

/-- A settled channel on which no power-down is due is left alone by every poll. -/
theorem updates_stay (ts : List Nat) :
    ∀ s : ExtServo, s.current = s.target →
      (∀ t ∈ ts, s.get_idle_enable = false ∨ s.get_idle = true
          ∨ sub32 t s.start < mul32 s.idle_wait 1000) →
      s.updates ts = (s, ts.map (fun _ => (true, []))) := by
  induction ts with
  | nil => intro s _ _; rfl
  | cons t rest ih =>
    intro s hs h
    have h1 := update_settled_stay s t hs (h t (List.mem_cons_self t rest))
    rw [updates_cons, h1]
    simp only []
    rw [ih s hs (fun x hx => h x (List.mem_cons_of_mem t hx))]
    rfl

/-- C8. Idle transition: take a settled channel (`current = target`) with
idle management enabled and the idle flag clear, and any sequence of
`update()` calls (wake = false) with no `write` or `track` in between. As long
as no call sees `now - start >= idle_wait * 1000` (32-bit unsigned
arithmetic, as in the code), every call returns `true`, issues no command and
leaves the channel unchanged. On the first call that sees it, the detach
sequence (servo detach, pin to INPUT, idle flag set) is performed, and it is
performed on no call before or after: every call returns `true`, all other
calls issue no command, and `current` and `target` never change. -/
theorem idle_transition (s : ExtServo) (hs : s.current = s.target)
    (he : s.get_idle_enable = true) (hi : s.get_idle = false) :
    (∀ ts : List Nat, (∀ t ∈ ts, sub32 t s.start < mul32 s.idle_wait 1000) →
        s.updates ts = (s, ts.map (fun _ => (true, []))))
    ∧ (∀ (pre : List Nat) (t : Nat) (post : List Nat),
        (∀ x ∈ pre, sub32 x s.start < mul32 s.idle_wait 1000) →
        mul32 s.idle_wait 1000 ≤ sub32 t s.start →
        s.updates (pre ++ t :: post)
          = (s.set_idle,
              pre.map (fun _ => (true, []))
                ++ (true, [Cmd.detach, Cmd.pinMode s.servo_pin PinMode.INPUT]
                      ++ (if s.set_idle.get_debug then [Cmd.print Msg.sleep] else []))
                  :: post.map (fun _ => (true, []))))
    ∧ s.set_idle.current = s.current ∧ s.set_idle.target = s.target
    ∧ s.set_idle.get_idle = true := by
  refine ⟨?_, ?_, rfl, rfl, get_idle_set_idle s⟩
  · intro ts h
    exact updates_stay ts s hs (fun t ht => Or.inr (Or.inr (h t ht)))
  · intro pre t post hpre ht
    induction pre with
    | nil =>
      rw [List.nil_append, updates_cons, update_settled_detach s t hs he hi ht]
      simp only []
      rw [updates_stay post s.set_idle hs (fun _ _ => Or.inr (Or.inl (get_idle_set_idle s)))]
      rfl
    | cons x rest ih =>
      have hx := update_settled_stay s x hs
        (Or.inr (Or.inr (hpre x (List.mem_cons_self x rest))))
      rw [List.cons_append, updates_cons, hx]
      simp only []
      rw [ih (fun y hy => hpre y (List.mem_cons_of_mem x hy))]
      rfl

/-- Witness for C8: a fresh channel (idle wait 10 s, built at clock 0) polled
at 100, 9999, 10000 and 10001 ms powers down at 10000 ms only. -/
theorem idle_transition_witness :
    fresh.current = fresh.target ∧ fresh.get_idle_enable = true ∧ fresh.get_idle = false
    ∧ fresh.updates ([100, 9999] ++ 10000 :: [10001])
        = (fresh.set_idle,
            [(true, []), (true, []), (true, [Cmd.detach, Cmd.pinMode 13 PinMode.INPUT]),
              (true, [])]) := by
  refine ⟨rfl, by decide, by decide, ?_⟩
  have h := (idle_transition fresh rfl (by decide) (by decide)).2.1 [100, 9999] 10000 [10001]
    (by decide) (by decide)
  rw [h]
  have hd : fresh.set_idle.get_debug = false := by decide
  rw [hd]
  rfl

end ExtServo

namespace ExtServo

/-! ## Waking an idle servo -/

theorem hardware_debug (c : Prop) [Decidable c] (m : Msg) :
    hardware (if c then [Cmd.print m] else []) = [] := by
  split_ifs <;> rfl

theorem hardware_append (a b : List Cmd) : hardware (a ++ b) = hardware a ++ hardware b := by
  unfold hardware
  exact List.filter_append _ _

/-- A `write` whose truncated new position equals the last output issues no
command and keeps the status word. -/
theorem write_silent (s : ExtServo) (now : Nat) (value period : ℚ)
    (h : toU32 (s.write now value period).1.current = s.last_out) :
    (s.write now value period).2 = []
    ∧ (s.write now value period).1.status = s.status := by
  obtain ⟨s1, h1, h2, h3, _⟩ := write_eq_flush s now value period
  rw [h1, flush_current, ← h2] at h
  rw [h1, flush_noop s1 h]
  exact ⟨rfl, h3⟩

/-- C9 (amended). Lazy wake on write: for every channel state with idle
management enabled and the idle flag set (detached), and every
`write(value, period)`: if the integer-truncated new `current` differs from
`last_out`, the hardware commands of the call are exactly pin mode to OUTPUT,
servo attach and one position write of the integer-truncated new `current`,
in this order, and the call ends with the idle flag clear; if it equals
`last_out`, the call issues no command and the channel stays detached with
the idle flag set. -/
theorem lazy_wake_on_write (s : ExtServo) (now : Nat) (value period : ℚ)
    (he : s.get_idle_enable = true) (hi : s.get_idle = true) :
    (toU32 (s.write now value period).1.current ≠ s.last_out →
        hardware (s.write now value period).2
          = [Cmd.pinMode s.servo_pin PinMode.OUTPUT, Cmd.attach s.servo_pin,
              Cmd.servoWrite (toU32 (s.write now value period).1.current)]
        ∧ (s.write now value period).1.get_idle = false
        ∧ (s.write now value period).1.last_out
            = toU32 (s.write now value period).1.current)
    ∧ (toU32 (s.write now value period).1.current = s.last_out →
        (s.write now value period).2 = []
        ∧ (s.write now value period).1.get_idle = true) := by
  obtain ⟨s1, h1, h2, h3, h4⟩ := write_eq_flush s now value period
  have he1 : s1.get_idle_enable = true := by
    unfold get_idle_enable at he ⊢
    rw [h3]
    exact he
  have hi1 : s1.get_idle = true := by
    unfold get_idle at hi ⊢
    rw [h3]
    exact hi
  rw [h1, flush_current, ← h2, ← h4]
  constructor
  · intro hne
    rw [flush_wake s1 hne he1 hi1]
    refine ⟨?_, get_idle_clr_idle s1, rfl⟩
    simp only [hardware_append, hardware_debug, List.append_nil]
    rfl
  · intro heq
    rw [flush_noop s1 heq]
    exact ⟨rfl, hi1⟩

/-- Witness for C9: a channel gone idle at position 0 receives `write(90, 0)`. -/
theorem lazy_wake_on_write_witness :
    fresh.set_idle.get_idle_enable = true ∧ fresh.set_idle.get_idle = true
    ∧ hardware (fresh.set_idle.write 20000 90 0).2
        = [Cmd.pinMode 13 PinMode.OUTPUT, Cmd.attach 13, Cmd.servoWrite 90]
    ∧ (fresh.set_idle.write 20000 90 0).1.get_idle = false := by
  have e90 : toU32 (90 : ℚ) = 90 := by decide
  have hc : (fresh.set_idle.write 20000 90 0).1.current = 90 := by
    rw [write_instant_path fresh.set_idle 20000 90 0 (Or.inl (by rw [e90]; decide)) le_rfl,
      flush_current]
  have h := (lazy_wake_on_write fresh.set_idle 20000 90 0 (by decide) (by decide)).1
    (by rw [hc, e90]; decide)
  rw [hc, e90] at h
  exact ⟨by decide, by decide, h.1, h.2.1⟩

/-- Counterexample to C9 as stated: a fresh channel polled at 10000 ms has
powered down (idle management enabled, idle flag set). `write(1, 1000)` then
starts a move, but the new position 0.001 still truncates to the last output
0: the call issues no command at all, neither a re-attach nor a position
write, and the idle flag stays set. -/
theorem write_while_idle_may_stay_idle :
    (fresh.update 10000 false).2.1.get_idle_enable = true
    ∧ (fresh.update 10000 false).2.1.get_idle = true
    ∧ ((fresh.update 10000 false).2.1.write 10000 1 1000).2 = []
    ∧ ((fresh.update 10000 false).2.1.write 10000 1 1000).1.get_idle = true
    ∧ ((fresh.update 10000 false).2.1.write 10000 1 1000).1.target = 1 := by
  have hD : (fresh.update 10000 false).2.1 = fresh.set_idle := by
    rw [update_settled_detach fresh 10000 rfl (by decide) (by decide) (by decide)]
  rw [hD]
  have e1 : toU32 (1 : ℚ) = 1 := by decide
  have e0 : toU32 (0 : ℚ) = 0 := by decide
  have hg : toU32 fresh.set_idle.target ≠ toU32 (1 : ℚ)
      ∨ toU32 fresh.set_idle.target ≠ toU32 fresh.set_idle.current := by
    left
    rw [e1]
    decide
  have hc : toU32 (fresh.set_idle.write 10000 1 1000).1.current = fresh.set_idle.last_out := by
    rw [(write_timed_fields fresh.set_idle 10000 1 1000 hg (by norm_num)).1]
    have : fresh.set_idle.current = 0 := rfl
    rw [this]
    norm_num [toU32, truncQ, U32]
    rfl
  obtain ⟨hq, hst⟩ := write_silent fresh.set_idle 10000 1 1000 hc
  refine ⟨by decide, by decide, hq, ?_, ?_⟩
  · unfold get_idle
    rw [hst]
    decide
  · exact (write_timed_fields fresh.set_idle 10000 1 1000 hg (by norm_num)).2.1

end ExtServo

namespace ExtServo

/-! ## Independence of the capability flags -/

theorem setBit_testBit (x k i : Nat) :
    (x ||| 2 ^ k).testBit i = (x.testBit i || decide (k = i)) := by
  rw [Nat.testBit_or, Nat.testBit_two_pow]

theorem not32_testBit (k i : Nat) (hk : k < 3) :
    (not32 (2 ^ k)).testBit i = (decide (i < 32) && decide (i ≠ k)) := by
  by_cases hi : i < 32
  · unfold not32
    interval_cases k <;> interval_cases i <;> decide
  · have h1 : not32 (2 ^ k) < 2 ^ i := by
      have h2 : not32 (2 ^ k) < 2 ^ 32 := by
        unfold not32
        exact lt_of_le_of_lt (Nat.sub_le _ _) (by decide)
      exact lt_of_lt_of_le h2 (Nat.pow_le_pow_right (by decide) (by omega))
    rw [Nat.testBit_lt_two_pow h1]
    simp [hi]

theorem clrBit_testBit (x k i : Nat) (hk : k < 3) (hx : x < U32) :
    (x &&& not32 (2 ^ k)).testBit i = (x.testBit i && decide (i ≠ k)) := by
  rw [Nat.testBit_and, not32_testBit k i hk]
  by_cases hi : i < 32
  · simp [hi]
  · have h1 : x < 2 ^ i :=
      lt_of_lt_of_le hx (by
        unfold U32
        exact (by decide : 4294967296 = 2 ^ 32) ▸ Nat.pow_le_pow_right (by decide) (by omega))
    rw [Nat.testBit_lt_two_pow h1]
    simp

end ExtServo

namespace ExtServo

/-- C13. Independent capability flags: for each of the three flags (debug,
idle, idle-enable) and every 32-bit status word, after `set_X` the getter
`get_X` is true, after `clr_X` it is false, and `set_X` and `clr_X` leave the
other two getters and every bit of `status` other than the flag's own bit
unchanged. -/
theorem flags_independent (s : ExtServo) (h : s.status < U32) :
    (s.set_debug.get_debug = true ∧ s.clr_debug.get_debug = false
      ∧ s.set_debug.get_idle = s.get_idle ∧ s.clr_debug.get_idle = s.get_idle
      ∧ s.set_debug.get_idle_enable = s.get_idle_enable
      ∧ s.clr_debug.get_idle_enable = s.get_idle_enable
      ∧ ∀ i, i ≠ 0 → s.set_debug.status.testBit i = s.status.testBit i
          ∧ s.clr_debug.status.testBit i = s.status.testBit i)
    ∧ (s.set_idle.get_idle = true ∧ s.clr_idle.get_idle = false
      ∧ s.set_idle.get_debug = s.get_debug ∧ s.clr_idle.get_debug = s.get_debug
      ∧ s.set_idle.get_idle_enable = s.get_idle_enable
      ∧ s.clr_idle.get_idle_enable = s.get_idle_enable
      ∧ ∀ i, i ≠ 1 → s.set_idle.status.testBit i = s.status.testBit i
          ∧ s.clr_idle.status.testBit i = s.status.testBit i)
    ∧ (s.set_idle_enable.get_idle_enable = true ∧ s.clr_idle_enable.get_idle_enable = false
      ∧ s.set_idle_enable.get_debug = s.get_debug ∧ s.clr_idle_enable.get_debug = s.get_debug
      ∧ s.set_idle_enable.get_idle = s.get_idle ∧ s.clr_idle_enable.get_idle = s.get_idle
      ∧ ∀ i, i ≠ 2 → s.set_idle_enable.status.testBit i = s.status.testBit i
          ∧ s.clr_idle_enable.status.testBit i = s.status.testBit i) := by
  have hs0 : ∀ i, s.set_debug.status.testBit i = (s.status.testBit i || decide (0 = i)) :=
    fun i => setBit_testBit s.status 0 i
  have hc0 : ∀ i, s.clr_debug.status.testBit i = (s.status.testBit i && decide (i ≠ 0)) :=
    fun i => clrBit_testBit s.status 0 i (by decide) h
  have hs1 : ∀ i, s.set_idle.status.testBit i = (s.status.testBit i || decide (1 = i)) :=
    fun i => setBit_testBit s.status 1 i
  have hc1 : ∀ i, s.clr_idle.status.testBit i = (s.status.testBit i && decide (i ≠ 1)) :=
    fun i => clrBit_testBit s.status 1 i (by decide) h
  have hs2 : ∀ i, s.set_idle_enable.status.testBit i
      = (s.status.testBit i || decide (2 = i)) :=
    fun i => setBit_testBit s.status 2 i
  have hc2 : ∀ i, s.clr_idle_enable.status.testBit i
      = (s.status.testBit i && decide (i ≠ 2)) :=
    fun i => clrBit_testBit s.status 2 i (by decide) h
  simp only [get_debug_eq, get_idle_eq, get_idle_enable_eq, hs0, hc0, hs1, hc1, hs2, hc2]
  refine ⟨⟨by simp, by simp, by simp, by simp, by simp, by simp, ?_⟩,
    ⟨by simp, by simp, by simp, by simp, by simp, by simp, ?_⟩,
    ⟨by simp, by simp, by simp, by simp, by simp, by simp, ?_⟩⟩
  · intro i hi
    have : ¬ (0 = i) := fun e => hi e.symm
    simp [hi, this]
  · intro i hi
    have : ¬ (1 = i) := fun e => hi e.symm
    simp [hi, this]
  · intro i hi
    have : ¬ (2 = i) := fun e => hi e.symm
    simp [hi, this]

/-- Witness for C13: the status word of a fresh channel. -/
theorem flags_independent_witness :
    fresh.status < U32 ∧ fresh.set_idle.get_idle = true ∧ fresh.clr_idle.get_idle = false
    ∧ fresh.set_idle.get_idle_enable = fresh.get_idle_enable :=
  ⟨by decide, (flags_independent fresh (by decide)).2.1.1,
    (flags_independent fresh (by decide)).2.1.2.1,
    (flags_independent fresh (by decide)).2.1.2.2.2.2.1⟩

end ExtServo

namespace ExtServo

/-! ## The return value of `update` -/

/-- A poll of a settled channel sends no position write. -/
theorem update_settled_servoWrites (s : ExtServo) (now : Nat) (hs : s.current = s.target) :
    servoWrites (s.update now false).2.2 = [] := by
  by_cases hc : s.get_idle_enable = true ∧ s.get_idle = false
      ∧ mul32 s.idle_wait 1000 ≤ sub32 now s.start
  · rw [update_settled_detach s now hs hc.1 hc.2.1 hc.2.2, servoWrites_append,
      servoWrites_debug]
    rfl
  · have h : s.get_idle_enable = false ∨ s.get_idle = true
        ∨ sub32 now s.start < mul32 s.idle_wait 1000 := by
      by_cases he : s.get_idle_enable = true
      · by_cases hi : s.get_idle = false
        · exact Or.inr (Or.inr (not_le.mp (fun hle => hc ⟨he, hi, hle⟩)))
        · exact Or.inr (Or.inl (by simpa using hi))
      · exact Or.inl (by simpa using he)
    rw [update_settled_stay s now hs h]
    rfl

/-- When `update` returns `true` the channel is settled. -/
theorem update_true_settled (s : ExtServo) (now : Nat) (h : (s.update now false).1 = true) :
    (s.update now false).2.1.current = (s.update now false).2.1.target := by
  by_cases hs : s.current = s.target
  · obtain ⟨_, hc, ht⟩ := update_settled_keeps s now hs
    rw [hc, ht, hs]
  · by_cases ht : s.timer ≤ now
    · rw [update_snap s now false (Or.inr hs) ht]
      show (_ : ExtServo).write_current_to_servo.1.current
        = (_ : ExtServo).write_current_to_servo.1.target
      rw [flush_current, flush_target]
    · rw [update_interp s now false (Or.inr hs) (not_le.mp ht)] at h
      exact absurd h Bool.false_ne_true

/-- Polling a settled channel: every call returns `true` and sends no position
write, and position and target stay as they are. -/
theorem updates_settled (ts : List Nat) :
    ∀ s : ExtServo, s.current = s.target →
      (s.updates ts).1.current = s.current ∧ (s.updates ts).1.target = s.target
      ∧ ∀ r ∈ (s.updates ts).2, r.1 = true ∧ servoWrites r.2 = [] := by
  induction ts with
  | nil =>
    intro s _
    refine ⟨rfl, rfl, ?_⟩
    intro r hr
    exact absurd hr (List.not_mem_nil r)
  | cons t rest ih =>
    intro s hs
    obtain ⟨h1, hc, ht⟩ := update_settled_keeps s t hs
    have hs1 : (s.update t false).2.1.current = (s.update t false).2.1.target := by
      rw [hc, ht, hs]
    obtain ⟨ic, it, ir⟩ := ih (s.update t false).2.1 hs1
    rw [updates_cons]
    refine ⟨by rw [ic, hc], by rw [it, ht], ?_⟩
    intro r hr
    rcases List.mem_cons.mp hr with e | hmem
    · rw [e]
      exact ⟨h1, update_settled_servoWrites s t hs⟩
    · exact ir r hmem

/-- C12. Return-value contract of `update`: for every channel state and clock
reading, if `update()` (wake = false) returns `true`, then in the resulting
state `current = target`, and every later sequence of `update()` calls
(wake = false) with no `write` or `track` in between returns `true` at every
call, leaves `current` and `target` unchanged and sends no position write to
the servo. -/
theorem update_true_contract (s : ExtServo) (now : Nat) (h : (s.update now false).1 = true) :
    (s.update now false).2.1.current = (s.update now false).2.1.target
    ∧ ∀ ts : List Nat,
        ((s.update now false).2.1.updates ts).1.current = (s.update now false).2.1.current
        ∧ ((s.update now false).2.1.updates ts).1.target = (s.update now false).2.1.target
        ∧ ∀ r ∈ ((s.update now false).2.1.updates ts).2, r.1 = true ∧ servoWrites r.2 = [] :=
  ⟨update_true_settled s now h,
    fun ts => updates_settled ts (s.update now false).2.1 (update_true_settled s now h)⟩

/-- Witness for C12: a fresh channel polled at 5 ms returns `true`, and so do
the polls at 7 ms and 20000 ms. -/
theorem update_true_contract_witness :
    (fresh.update 5 false).1 = true
    ∧ ((fresh.update 5 false).2.1.updates [7, 20000]).1.current
        = (fresh.update 5 false).2.1.current
    ∧ ∀ r ∈ ((fresh.update 5 false).2.1.updates [7, 20000]).2,
        r.1 = true ∧ servoWrites r.2 = [] :=
  ⟨(update_settled fresh 5 rfl).1,
    ((update_true_contract fresh 5 (update_settled fresh 5 rfl).1).2 [7, 20000]).1,
    ((update_true_contract fresh 5 (update_settled fresh 5 rfl).1).2 [7, 20000]).2.2⟩

end ExtServo

/-- For a float in the `uint32_t` range the cast is the integer part. -/
theorem toU32_eq_floor {x : ℚ} (h0 : 0 ≤ x) (h1 : x < (U32 : ℚ)) : (toU32 x : Int) = ⌊x⌋ := by
  have hf0 : (0 : Int) ≤ ⌊x⌋ := Int.floor_nonneg.mpr h0
  have hf1 : ⌊x⌋ < (U32 : Int) := by
    apply Int.floor_lt.mpr
    exact_mod_cast h1
  unfold toU32
  rw [truncQ_eq_floor h0]
  unfold U32 at hf1 ⊢
  push_cast at hf1 ⊢
  omega

namespace ExtServo

/-- C15. Output reflects position: in every state reachable from construction
through any sequence of `begin`, `write`, `update`, `track` and flag set/clear
calls, `last_out` equals the integer truncation of `current` as the
`(uint32_t)` cast takes it, which for a position in `[0, 2^32)` is its integer
part; in particular this holds after every `write` call, the no-op path
included. -/
theorem output_reflects_position (s : ExtServo) (hr : Reachable s) :
    s.last_out = toU32 s.current
    ∧ (0 ≤ s.current → s.current < (U32 : ℚ) → (s.last_out : Int) = ⌊s.current⌋)
    ∧ ∀ (now : Nat) (value period : ℚ),
        (s.write now value period).1.last_out = toU32 (s.write now value period).1.current := by
  have h := reachable_last_out s hr
  refine ⟨h, ?_, fun now value period => write_last_out s now value period⟩
  intro h0 h1
  rw [h]
  exact toU32_eq_floor h0 h1

/-- Witness for C15: a fresh channel after `write(100, 10)`, at position 10. -/
theorem output_reflects_position_witness :
    Reachable (fresh.write 0 100 10).1
    ∧ (fresh.write 0 100 10).1.last_out = toU32 (fresh.write 0 100 10).1.current :=
  ⟨Reachable.write fresh 0 100 10 (Reachable.new 13 34 0 true (1 / 50) 0 (by decide))
      (by decide),
    (output_reflects_position (fresh.write 0 100 10).1
      (Reachable.write fresh 0 100 10 (Reachable.new 13 34 0 true (1 / 50) 0 (by decide))
        (by decide))).1⟩

end ExtServo

namespace ExtServo

/-! ## Accepted sensor readings -/

/-- C11 (amended). Jitter acceptance: for every channel state (its `last` a
32-bit value), every jitter threshold, every raw reading `r` in
`[0, MAX_ANALOG_IN]` different from `last` and every period: if
`|r - last| ≥ max_jitter`, then `track(period)` sets `last = r` and has
exactly the effect of `write(m, period)`, where `m` is the result of
`map(r, 0, MAX_ANALOG_IN, lower, upper)`. -/
theorem track_jitter_accepted (s : ExtServo) (esp32 : Bool) (r : Int) (now : Nat)
    (period : Int) (hl : s.last < U32) (h0 : 0 ≤ r) (h1 : r ≤ (MAX_ANALOG_IN esp32 : Int))
    (hne : r ≠ (s.last : Int)) (hj : (s.max_jitter : Int) ≤ |r - (s.last : Int)|) :
    s.track esp32 r now period
      = ({ s with last := r.toNat } : ExtServo).write now
          ((map r 0 (MAX_ANALOG_IN esp32 : Int) (toI32 s.lower) (toI32 s.upper) : Int) : ℚ)
          (period : ℚ) := by
  have hm := MAX_ANALOG_IN_lt esp32
  have hr : (intToU32 r : Int) = r := by
    apply intToU32_of_nonneg h0
    unfold U32
    push_cast
    omega
  have hrn : intToU32 r = r.toNat := by omega
  have hacc : (s.last > intToU32 r ∧ sub32 s.last (intToU32 r) ≥ s.max_jitter)
      ∨ (intToU32 r > s.last ∧ sub32 (intToU32 r) s.last ≥ s.max_jitter) := by
    unfold sub32
    unfold U32 at hl ⊢
    rcases le_or_lt 0 (r - (s.last : Int)) with hd | hd
    · rw [abs_of_nonneg hd] at hj
      right
      omega
    · rw [abs_of_neg hd] at hj
      left
      omega
  rw [track_accept s esp32 r now period hacc, hrn]

end ExtServo

namespace ExtServo

/-- Witness for C11: a reading of 100 on a fresh channel (threshold 81, last 0). -/
theorem track_jitter_accepted_witness :
    fresh.last < U32 ∧ (0 : Int) ≤ 100 ∧ (100 : Int) ≤ (MAX_ANALOG_IN true : Int)
    ∧ (100 : Int) ≠ (fresh.last : Int)
    ∧ (fresh.max_jitter : Int) ≤ |(100 : Int) - (fresh.last : Int)|
    ∧ fresh.track true 100 0 20
        = ({ fresh with last := (100 : Int).toNat } : ExtServo).write 0
            ((map 100 0 (MAX_ANALOG_IN true : Int) (toI32 fresh.lower) (toI32 fresh.upper)
              : Int) : ℚ) ((20 : Int) : ℚ) :=
  ⟨by decide, by decide, by decide, by decide, by rw [fresh_max_jitter]; decide,
    track_jitter_accepted fresh true 100 0 20 (by decide) (by decide) (by decide) (by decide)
      (by rw [fresh_max_jitter]; decide)⟩

/-- The state left by `begin`: the limits are recorded, the status word may
lose the idle flag, nothing else changes. -/
theorem begin_state (s : ExtServo) (hertz lower upper : Nat) :
    ∃ st, (s.begin hertz lower upper).1
      = { s with status := st, lower := (lower : ℚ), upper := (upper : ℚ) } := by
  unfold begin
  by_cases he : ({ s with lower := (lower : ℚ), upper := (upper : ℚ) } : ExtServo).get_idle_enable
      = true
  · simp only [he, if_true]
    exact ⟨_, rfl⟩
  · simp only [he, if_false]
    exact ⟨_, rfl⟩

theorem unfiltered_fields :
    unfiltered.max_jitter = 0 ∧ unfiltered.last = 0 ∧ unfiltered.current = 0
    ∧ unfiltered.target = 0 ∧ unfiltered.lower = 10 ∧ unfiltered.upper = 20
    ∧ unfiltered.last_out = 0 := by
  obtain ⟨st, hb⟩ := begin_state (ExtServo.new 13 34 0 true 0 0) 50 10 20
  unfold unfiltered
  rw [hb]
  refine ⟨?_, rfl, rfl, rfl, ?_, ?_, rfl⟩
  · show toU32 (((MAX_ANALOG_IN true : Nat) : ℚ) * 0) = 0
    rw [mul_zero]
    decide
  · show ((10 : Nat) : ℚ) = 10
    norm_num
  · show ((20 : Nat) : ℚ) = 20
    norm_num

/-- Counterexample to C11 as stated: a channel with jitter threshold 0,
limits 10 and 20, `last = 0`, at rest at position 0, reads `r = 0`. Then
`|r - last| = 0 ≥ max_jitter`, but `track` tests `input != last` first and
does nothing, while `write(m, 0)` with the mapped value `m = 10` moves the
channel to 10 and sends a position write. -/
theorem track_ignores_unchanged_reading :
    (0 : Int) ≤ 0 ∧ (0 : Int) ≤ (MAX_ANALOG_IN true : Int)
    ∧ (unfiltered.max_jitter : Int) ≤ |(0 : Int) - (unfiltered.last : Int)|
    ∧ unfiltered.track true 0 0 0 = (unfiltered, [])
    ∧ map 0 0 (MAX_ANALOG_IN true : Int) (toI32 unfiltered.lower) (toI32 unfiltered.upper) = 10
    ∧ (({ unfiltered with last := (0 : Int).toNat } : ExtServo).write 0
          ((10 : Int) : ℚ) ((0 : Int) : ℚ)).1.current = 10
    ∧ unfiltered.current = 0 := by
  obtain ⟨hj, hl, hc, ht, hlo, hup, _⟩ := unfiltered_fields
  refine ⟨by decide, by decide, ?_, ?_, ?_, ?_, hc⟩
  · rw [hj, hl]
    decide
  · apply track_reject
    rw [hl]
    have : intToU32 0 = 0 := by decide
    rw [this]
    omega
  · rw [hlo, hup]
    decide
  · have e10 : toU32 (((10 : Int) : ℚ)) = 10 := by
      norm_num [toU32, truncQ, U32]
      rfl
    have e0 : toU32 (0 : ℚ) = 0 := by decide
    rw [write_instant_path _ 0 _ _ (Or.inl (by
      show toU32 unfiltered.target ≠ toU32 (((10 : Int) : ℚ))
      rw [ht, e10, e0]
      decide)) (by norm_num), flush_current]
    norm_num

end ExtServo

namespace ExtServo

/-! ## Position writes along a sequence of calls -/

/-- The flush either sends nothing and keeps `last_out`, or sends one position
write of a new value and records it. -/
theorem flush_writes (s : ExtServo) :
    (servoWrites s.write_current_to_servo.2 = []
        ∧ s.write_current_to_servo.1.last_out = s.last_out)
    ∨ (∃ v, servoWrites s.write_current_to_servo.2 = [v] ∧ v ≠ s.last_out
        ∧ s.write_current_to_servo.1.last_out = v) := by
  rw [flush_servoWrites, flush_last_out]
  by_cases h : toU32 s.current = s.last_out
  · left
    simp [h]
  · right
    exact ⟨toU32 s.current, by simp [h], h, rfl⟩

/-- Every call either sends no position write and keeps `last_out`, or sends
one position write of a value different from `last_out` and records it. -/
theorem step_writes (s : ExtServo) (c : Call) :
    (servoWrites (s.step c).2 = [] ∧ (s.step c).1.last_out = s.last_out)
    ∨ (∃ v, servoWrites (s.step c).2 = [v] ∧ v ≠ s.last_out ∧ (s.step c).1.last_out = v) := by
  have hwrite : ∀ (r : ExtServo) (now : Nat) (value period : ℚ), r.last_out = s.last_out →
      ((servoWrites (r.write now value period).2 = []
          ∧ (r.write now value period).1.last_out = s.last_out)
        ∨ (∃ v, servoWrites (r.write now value period).2 = [v] ∧ v ≠ s.last_out
          ∧ (r.write now value period).1.last_out = v)) := by
    intro r now value period hr
    obtain ⟨s1, h1, h2, _, _⟩ := write_eq_flush r now value period
    rw [h1, ← hr, ← h2]
    exact flush_writes s1
  cases c with
  | begin hertz lower upper =>
    left
    obtain ⟨st, hb⟩ := begin_state s hertz lower upper
    refine ⟨?_, by show (s.begin hertz lower upper).1.last_out = _; rw [hb]⟩
    show servoWrites (s.begin hertz lower upper).2 = []
    unfold begin
    simp only [servoWrites_append]
    split_ifs <;> rfl
  | write now value period => exact hwrite s now value period rfl
  | update now wake =>
    show (servoWrites (s.update now wake).2.2 = [] ∧ (s.update now wake).2.1.last_out = _)
      ∨ (∃ v, servoWrites (s.update now wake).2.2 = [v] ∧ v ≠ s.last_out
          ∧ (s.update now wake).2.1.last_out = v)
    by_cases hm : wake = true ∨ s.current ≠ s.target
    · by_cases ht : s.timer ≤ now
      · rw [update_snap s now wake hm ht]
        exact flush_writes _
      · rw [update_interp s now wake hm (not_le.mp ht)]
        exact flush_writes _
    · have hw : wake = false := by
        cases wake
        · rfl
        · exact absurd (Or.inl rfl) hm
      have hs : s.current = s.target := by
        by_contra hne
        exact hm (Or.inr hne)
      subst hw
      left
      refine ⟨update_settled_servoWrites s now hs, ?_⟩
      rcases (update_settled s now hs).2 with e | e
      · rw [e]
      · rw [e]
        rfl
  | track esp32 input now period =>
    show (servoWrites (s.track esp32 input now period).2 = []
        ∧ (s.track esp32 input now period).1.last_out = s.last_out)
      ∨ (∃ v, servoWrites (s.track esp32 input now period).2 = [v] ∧ v ≠ s.last_out
          ∧ (s.track esp32 input now period).1.last_out = v)
    by_cases hc : (s.last > intToU32 input ∧ sub32 s.last (intToU32 input) ≥ s.max_jitter)
          ∨ (intToU32 input > s.last ∧ sub32 (intToU32 input) s.last ≥ s.max_jitter)
    · rw [track_accept s esp32 input now period hc]
      exact hwrite ({ s with last := intToU32 input } : ExtServo) now
        ((map input 0 (MAX_ANALOG_IN esp32 : Int) (toI32 s.lower) (toI32 s.upper) : Int) : ℚ)
        (period : ℚ) rfl
    · rw [track_reject s esp32 input now period hc]
      exact Or.inl ⟨rfl, rfl⟩
  | set_debug => exact Or.inl ⟨rfl, rfl⟩
  | clr_debug => exact Or.inl ⟨rfl, rfl⟩
  | set_idle => exact Or.inl ⟨rfl, rfl⟩
  | clr_idle => exact Or.inl ⟨rfl, rfl⟩
  | set_idle_enable => exact Or.inl ⟨rfl, rfl⟩
  | clr_idle_enable => exact Or.inl ⟨rfl, rfl⟩

theorem run_cons (s : ExtServo) (c : Call) (cs : List Call) :
    run s (c :: cs) = ((run (s.step c).1 cs).1, (s.step c).2 ++ (run (s.step c).1 cs).2) := rfl

/-- Along any sequence of calls, each position write differs from the one
before it, the first from the `last_out` the sequence starts with. -/
theorem run_writes_chain (calls : List Call) :
    ∀ s : ExtServo, List.Chain (· ≠ ·) s.last_out (servoWrites (run s calls).2) := by
  induction calls with
  | nil => intro s; exact List.Chain.nil
  | cons c cs ih =>
    intro s
    rw [run_cons, servoWrites_append]
    rcases step_writes s c with ⟨h1, h2⟩ | ⟨v, h1, h2, h3⟩
    · rw [h1, List.nil_append, ← h2]
      exact ih _
    · rw [h1, List.singleton_append]
      refine List.Chain.cons h2.symm ?_
      rw [← h3]
      exact ih _

/-- C16. Redundant hardware writes are suppressed: over every sequence of
calls (`write`, `update`, `track`, and also `begin` and the flag setters) on a
freshly constructed channel, each position write sent to the servo carries a
value different from that of the previous position write, and the first one a
value different from 0, the initial `last_out`; and a flush whose
integer-truncated `current` equals `last_out` sends nothing and changes no
field. -/
theorem redundant_writes_suppressed (pin_servo pin_input : Int) (now : Nat) (esp32 : Bool)
    (jf st0 : ℚ) (calls : List Call) :
    List.Chain (· ≠ ·) 0
        (servoWrites (run (ExtServo.new pin_servo pin_input now esp32 jf st0) calls).2)
    ∧ ∀ s : ExtServo, toU32 s.current = s.last_out → s.write_current_to_servo = (s, []) :=
  ⟨run_writes_chain calls (ExtServo.new pin_servo pin_input now esp32 jf st0),
    fun s h => flush_noop s h⟩

end ExtServo

namespace ExtServo

/-! ## Polling with `wake = true` -/

/-- The flush never detaches the servo and never sets the idle flag. -/
theorem flush_no_power_down (s : ExtServo) :
    Cmd.detach ∉ s.write_current_to_servo.2
    ∧ (s.write_current_to_servo.1.get_idle = true → s.get_idle = true) := by
  by_cases h : toU32 s.current = s.last_out
  · rw [flush_noop s h]
    exact ⟨List.not_mem_nil _, id⟩
  · by_cases hi : (s.get_idle_enable && s.get_idle) = true
    · rw [Bool.and_eq_true] at hi
      rw [flush_wake s h hi.1 hi.2]
      refine ⟨?_, fun _ => hi.2⟩
      split_ifs <;> simp
    · rw [flush_plain s h (Bool.not_eq_true _ ▸ hi)]
      refine ⟨?_, id⟩
      split_ifs <;> simp

/-- C14 (amended). Waking poll of a settled channel: for every settled channel
state (`current = target`) and every clock reading, `update(wake = true)`
performs no idle power-down (no detach command, and the idle flag is not set
by the call). If moreover the end time of the last move has passed
(`now ≥ timer`), `target` is a whole number in the `uint32_t` range and
`last_out` is the truncated `current` (as in every reachable state), the call
returns `true`, changes no field and sends no command. -/
theorem wake_update_settled (s : ExtServo) (now : Nat) (hs : s.current = s.target) :
    Cmd.detach ∉ (s.update now true).2.2
    ∧ ((s.update now true).2.1.get_idle = true → s.get_idle = true)
    ∧ (s.timer ≤ now → ((toU32 s.target : Nat) : ℚ) = s.target →
        s.last_out = toU32 s.current → s.update now true = (true, s, [])) := by
  refine ⟨?_, ?_, ?_⟩
  · by_cases ht : s.timer ≤ now
    · rw [update_snap s now true (Or.inl rfl) ht]
      exact (flush_no_power_down _).1
    · rw [update_interp s now true (Or.inl rfl) (not_le.mp ht)]
      exact (flush_no_power_down _).1
  · by_cases ht : s.timer ≤ now
    · rw [update_snap s now true (Or.inl rfl) ht]
      exact (flush_no_power_down _).2
    · rw [update_interp s now true (Or.inl rfl) (not_le.mp ht)]
      exact (flush_no_power_down _).2
  · intro ht hw hl
    rw [update_snap s now true (Or.inl rfl) ht]
    have hsame :
        ({ s with target := (toU32 s.target : ℚ), current := (toU32 s.target : ℚ) } : ExtServo)
          = s := by
      rw [hw]
      cases s
      simp only [mk.injEq, true_and, and_true] at hs ⊢
      exact hs.symm
    rw [hsame, flush_noop s hl.symm]

/-- Witness for C14: a fresh channel, at rest at 0, polled with `wake = true`. -/
theorem wake_update_settled_witness :
    fresh.current = fresh.target ∧ fresh.timer ≤ 5
    ∧ ((toU32 fresh.target : Nat) : ℚ) = fresh.target
    ∧ fresh.last_out = toU32 fresh.current
    ∧ fresh.update 5 true = (true, fresh, []) := by
  have h1 : fresh.timer ≤ 5 := by decide
  have h2 : ((toU32 fresh.target : Nat) : ℚ) = fresh.target := by
    have : toU32 fresh.target = 0 := by decide
    rw [this]
    exact Nat.cast_zero
  have h3 : fresh.last_out = toU32 fresh.current := by decide
  exact ⟨rfl, h1, h2, h3, (wake_update_settled fresh 5 rfl).2.2 h1 h2 h3⟩

end ExtServo

namespace ExtServo

/-- Counterexample to C14 as stated, at two settled states. First, a channel
brought to rest at 10.5 by `write(10.5, 0)` at clock 0 and polled with
`wake = true` at clock 5: the snap truncates `target` and `current` to 10.
Second, a channel brought to 100 by `write(100, 1)` at clock 0 (one step of
the whole distance, so `current = target = 100`) and polled with
`wake = true` at clock 0, the start time: the position is recomputed as
`0 + 0 * 100 = 0` and the position write 0 is sent. -/
theorem wake_update_moves :
    ((fresh.write 0 (21 / 2) 0).1.current = (fresh.write 0 (21 / 2) 0).1.target
      ∧ (fresh.write 0 (21 / 2) 0).1.start ≤ 5
      ∧ (fresh.write 0 (21 / 2) 0).1.target = 21 / 2
      ∧ ((fresh.write 0 (21 / 2) 0).1.update 5 true).2.1.target = 10
      ∧ ((fresh.write 0 (21 / 2) 0).1.update 5 true).2.1.current = 10)
    ∧ ((fresh.write 0 100 1).1.current = (fresh.write 0 100 1).1.target
      ∧ (fresh.write 0 100 1).1.start ≤ 0
      ∧ (fresh.write 0 100 1).1.current = 100
      ∧ ((fresh.write 0 100 1).1.update 0 true).2.1.current = 0
      ∧ servoWrites ((fresh.write 0 100 1).1.update 0 true).2.2 = [0]) := by
  have e21 : toU32 (21 / 2 : ℚ) = 10 := by
    norm_num [toU32, truncQ, U32]
    rfl
  have e100 : toU32 (100 : ℚ) = 100 := by decide
  have e0 : toU32 (0 : ℚ) = 0 := by decide
  have hcur : fresh.current = 0 := rfl
  constructor
  · have hA : fresh.write 0 (21 / 2) 0 = _ :=
      write_instant_path fresh 0 (21 / 2) 0 (Or.inl (by rw [e21]; decide)) le_rfl
    have hAc : (fresh.write 0 (21 / 2) 0).1.current = 21 / 2 := by rw [hA, flush_current]
    have hAt : (fresh.write 0 (21 / 2) 0).1.target = 21 / 2 := by rw [hA, flush_target]
    have hAs : (fresh.write 0 (21 / 2) 0).1.start = 0 := by rw [hA, flush_start]
    have hAm : (fresh.write 0 (21 / 2) 0).1.timer = 0 := by rw [hA, flush_timer]
    refine ⟨by rw [hAc, hAt], by rw [hAs]; decide, hAt, ?_, ?_⟩
    · rw [update_snap _ 5 true (Or.inl rfl) (by rw [hAm]; decide)]
      show (_ : ExtServo).write_current_to_servo.1.target = 10
      rw [flush_target]
      show ((toU32 (fresh.write 0 (21 / 2) 0).1.target : Nat) : ℚ) = 10
      rw [hAt, e21]
      norm_num
    · rw [update_snap _ 5 true (Or.inl rfl) (by rw [hAm]; decide)]
      show (_ : ExtServo).write_current_to_servo.1.current = 10
      rw [flush_current]
      show ((toU32 (fresh.write 0 (21 / 2) 0).1.target : Nat) : ℚ) = 10
      rw [hAt, e21]
      norm_num
  · obtain ⟨hc, htg, hst, hsa, hs0, htm⟩ :=
      write_timed_fields fresh 0 100 1 (restart_of_cast_ne fresh 100 (by decide)) (by norm_num)
    have hBc : (fresh.write 0 100 1).1.current = 100 := by
      rw [hc, hcur]
      norm_num
    have hBm : (fresh.write 0 100 1).1.timer = 1 := by
      rw [htm]
      norm_num [toU32, truncQ, U32]
    have hBl : (fresh.write 0 100 1).1.last_out = 100 := by
      rw [write_last_out, hBc, e100]
    have hsub : sub32 0 0 = 0 := by decide
    have hnew : (fresh.write 0 100 1).1.starting
        + (sub32 0 (fresh.write 0 100 1).1.start : ℚ) * (fresh.write 0 100 1).1.step_amt = 0 := by
      rw [hst, hs0, hsa, hcur, hsub]
      norm_num
    refine ⟨by rw [hBc, htg], by rw [hs0], hBc, ?_, ?_⟩
    · rw [update_interp _ 0 true (Or.inl rfl) (by rw [hBm]; decide)]
      show (_ : ExtServo).write_current_to_servo.1.current = 0
      rw [flush_current]
      exact hnew
    · rw [update_interp _ 0 true (Or.inl rfl) (by rw [hBm]; decide)]
      show servoWrites (_ : ExtServo).write_current_to_servo.2 = [0]
      rw [flush_servoWrites]
      show (if toU32 ((fresh.write 0 100 1).1.starting
          + (sub32 0 (fresh.write 0 100 1).1.start : ℚ) * (fresh.write 0 100 1).1.step_amt)
            ≠ (fresh.write 0 100 1).1.last_out
          then [toU32 ((fresh.write 0 100 1).1.starting
          + (sub32 0 (fresh.write 0 100 1).1.start : ℚ) * (fresh.write 0 100 1).1.step_amt)]
          else []) = [0]
      rw [hnew, hBl, e0]
      decide

end ExtServo

namespace ExtServo

/-! ## The position stays on the motion segment -/

end ExtServo

namespace ExtServo

end ExtServo

namespace ExtServo

end ExtServo

namespace ExtServo

/-! ## Start and end time of a move -/

end ExtServo

namespace ExtServo

end ExtServo

namespace ExtServo

/-! ## The sensor mapping -/

end ExtServo

namespace ExtServo

end ExtServo

namespace ExtServo

end ExtServo

namespace ExtServo

/-! ## The idle flag and the attachment of the servo -/

theorem scanAttached_append (l1 l2 : List Cmd) :
    ∀ a : Bool, scanAttached a (l1 ++ l2)
      = (scanAttached a l1).bind (fun b => scanAttached b l2) := by
  induction l1 with
  | nil => intro a; rfl
  | cons c rest ih =>
    intro a
    cases c with
    | pinMode pin mode => exact ih a
    | setPeriodHertz hz => exact ih a
    | attach pin => exact ih true
    | attachRange pin lo hi => exact ih true
    | detach => exact ih false
    | servoWrite v =>
      cases a with
      | true => exact ih true
      | false => rfl
    | print m => exact ih a

theorem scanAttached_debug (a : Bool) (c : Prop) [Decidable c] (m : Msg) :
    scanAttached a (if c then [Cmd.print m] else []) = some a := by
  split_ifs <;> rfl

theorem get_idle_of_status (s r : ExtServo) (h : r.status = s.status) :
    r.get_idle = s.get_idle ∧ r.get_idle_enable = s.get_idle_enable := by
  unfold get_idle get_idle_enable
  rw [h]
  exact ⟨rfl, rfl⟩

/-- With idle management enabled, the flush keeps the idle flag the negation
of the attachment and writes only to an attached servo. -/
theorem flush_scan (s : ExtServo) (he : s.get_idle_enable = true) :
    scanAttached (!s.get_idle) s.write_current_to_servo.2
        = some (!s.write_current_to_servo.1.get_idle)
    ∧ s.write_current_to_servo.1.get_idle_enable = true := by
  by_cases h : toU32 s.current = s.last_out
  · rw [flush_noop s h]
    exact ⟨rfl, he⟩
  · by_cases hi : s.get_idle = true
    · rw [flush_wake s h he hi]
      have h1 : ({ s.clr_idle with last_out := toU32 s.current } : ExtServo).get_idle = false :=
        get_idle_clr_idle s
      have h2 : ({ s.clr_idle with last_out := toU32 s.current } : ExtServo).get_idle_enable
          = true := (get_idle_enable_clr_idle s).trans he
      refine ⟨?_, h2⟩
      simp only [h1, hi, scanAttached_append, scanAttached_debug, Bool.not_true, Bool.not_false]
      rfl
    · have hi' : s.get_idle = false := by simpa using hi
      rw [flush_plain s h (by rw [he, hi']; rfl)]
      have h1 : ({ s with last_out := toU32 s.current } : ExtServo).get_idle = false := hi'
      refine ⟨?_, he⟩
      simp only [h1, hi', scanAttached_append, scanAttached_debug, Bool.not_false]
      rfl

end ExtServo

namespace ExtServo

theorem write_scan (s : ExtServo) (now : Nat) (value period : ℚ)
    (he : s.get_idle_enable = true) :
    scanAttached (!s.get_idle) (s.write now value period).2
        = some (!(s.write now value period).1.get_idle)
    ∧ (s.write now value period).1.get_idle_enable = true := by
  obtain ⟨s1, h1, _, h3, _⟩ := write_eq_flush s now value period
  obtain ⟨hi1, he1⟩ := get_idle_of_status s s1 h3
  rw [h1, ← hi1]
  exact flush_scan s1 (he1.trans he)

theorem update_scan (s : ExtServo) (now : Nat) (wake : Bool) (he : s.get_idle_enable = true) :
    scanAttached (!s.get_idle) (s.update now wake).2.2
        = some (!(s.update now wake).2.1.get_idle)
    ∧ (s.update now wake).2.1.get_idle_enable = true := by
  by_cases hm : wake = true ∨ s.current ≠ s.target
  · by_cases ht : s.timer ≤ now
    · rw [update_snap s now wake hm ht]
      exact flush_scan
        ({ s with target := (toU32 s.target : ℚ), current := (toU32 s.target : ℚ) } : ExtServo) he
    · rw [update_interp s now wake hm (not_le.mp ht)]
      exact flush_scan
        ({ s with current := s.starting + (sub32 now s.start : ℚ) * s.step_amt } : ExtServo) he
  · have hw : wake = false := by
      cases wake
      · rfl
      · exact absurd (Or.inl rfl) hm
    have hs : s.current = s.target := by
      by_contra hne
      exact hm (Or.inr hne)
    subst hw
    by_cases hc : s.get_idle = false ∧ mul32 s.idle_wait 1000 ≤ sub32 now s.start
    · rw [update_settled_detach s now hs he hc.1 hc.2]
      refine ⟨?_, (get_idle_enable_set_idle s).trans he⟩
      simp only [hc.1, get_idle_set_idle, scanAttached_append, scanAttached_debug,
        Bool.not_true, Bool.not_false]
      rfl
    · have h : s.get_idle_enable = false ∨ s.get_idle = true
          ∨ sub32 now s.start < mul32 s.idle_wait 1000 := by
        by_cases hi : s.get_idle = false
        · exact Or.inr (Or.inr (not_le.mp (fun hle => hc ⟨hi, hle⟩)))
        · exact Or.inr (Or.inl (by simpa using hi))
      rw [update_settled_stay s now hs h]
      exact ⟨rfl, he⟩

theorem track_scan (s : ExtServo) (esp32 : Bool) (input : Int) (now : Nat) (period : Int)
    (he : s.get_idle_enable = true) :
    scanAttached (!s.get_idle) (s.track esp32 input now period).2
        = some (!(s.track esp32 input now period).1.get_idle)
    ∧ (s.track esp32 input now period).1.get_idle_enable = true := by
  by_cases hc : (s.last > intToU32 input ∧ sub32 s.last (intToU32 input) ≥ s.max_jitter)
        ∨ (intToU32 input > s.last ∧ sub32 (intToU32 input) s.last ≥ s.max_jitter)
  · rw [track_accept s esp32 input now period hc]
    exact write_scan ({ s with last := intToU32 input } : ExtServo) now
      ((map input 0 (MAX_ANALOG_IN esp32 : Int) (toI32 s.lower) (toI32 s.upper) : Int) : ℚ)
      (period : ℚ) he
  · rw [track_reject s esp32 input now period hc]
    exact ⟨rfl, he⟩

/-- After `begin` on a channel with idle management enabled the servo is
attached and the idle flag is clear. -/
theorem begin_scan (s : ExtServo) (hertz lower upper : Nat) (a0 : Bool)
    (he : s.get_idle_enable = true) :
    scanAttached a0 (s.begin hertz lower upper).2 = some true
    ∧ (s.begin hertz lower upper).1.get_idle = false
    ∧ (s.begin hertz lower upper).1.get_idle_enable = true := by
  have he1 : ({ s with lower := (lower : ℚ), upper := (upper : ℚ) } : ExtServo).get_idle_enable
      = true := he
  unfold begin
  simp only [he1, if_true]
  refine ⟨?_, get_idle_clr_idle _, (get_idle_enable_clr_idle _).trans he1⟩
  rw [scanAttached_append]
  split_ifs <;> rfl

/-- Along `write`, `update` and `track` calls with idle management enabled,
the idle flag stays the negation of the attachment and no position write goes
to a detached servo. -/
theorem run_scan (calls : List Call) :
    ∀ s : ExtServo, s.get_idle_enable = true → (∀ c ∈ calls, c.isMotion = true) →
      scanAttached (!s.get_idle) (run s calls).2 = some (!(run s calls).1.get_idle)
      ∧ (run s calls).1.get_idle_enable = true := by
  induction calls with
  | nil => intro s he _; exact ⟨rfl, he⟩
  | cons c cs ih =>
    intro s he hm
    have hstep : scanAttached (!s.get_idle) (s.step c).2 = some (!(s.step c).1.get_idle)
        ∧ (s.step c).1.get_idle_enable = true := by
      have hc := hm c (List.mem_cons_self c cs)
      cases c with
      | write now value period => exact write_scan s now value period he
      | update now wake => exact update_scan s now wake he
      | track esp32 input now period => exact track_scan s esp32 input now period he
      | begin hertz lower upper => exact absurd hc Bool.false_ne_true
      | set_debug => exact absurd hc Bool.false_ne_true
      | clr_debug => exact absurd hc Bool.false_ne_true
      | set_idle => exact absurd hc Bool.false_ne_true
      | clr_idle => exact absurd hc Bool.false_ne_true
      | set_idle_enable => exact absurd hc Bool.false_ne_true
      | clr_idle_enable => exact absurd hc Bool.false_ne_true
    obtain ⟨h1, h2⟩ := ih (s.step c).1 hstep.2 (fun x hx => hm x (List.mem_cons_of_mem c hx))
    rw [run_cons, scanAttached_append, hstep.1]
    exact ⟨h1, h2⟩

/-- C20. The idle flag mirrors the physical attachment: after `begin` on a
channel whose idle-management flag is enabled, through every sequence of
`write`, `update` and `track` calls, following the attach and detach commands
of the whole command trace (from any attachment before `begin`) never meets a
position write while the servo is detached, and ends attached exactly when
the idle flag is clear, that is, the idle flag is set exactly when the most
recent attach/detach command was a detach; idle management stays enabled. -/
theorem idle_flag_mirrors_attachment (s : ExtServo) (hertz lower upper : Nat)
    (calls : List Call) (a0 : Bool) (he : s.get_idle_enable = true)
    (hm : ∀ c ∈ calls, c.isMotion = true) :
    scanAttached a0 ((s.begin hertz lower upper).2 ++ (run (s.begin hertz lower upper).1 calls).2)
        = some (!(run (s.begin hertz lower upper).1 calls).1.get_idle)
    ∧ (run (s.begin hertz lower upper).1 calls).1.get_idle_enable = true := by
  obtain ⟨hb1, hb2, hb3⟩ := begin_scan s hertz lower upper a0 he
  obtain ⟨h1, h2⟩ := run_scan calls (s.begin hertz lower upper).1 hb3 hm
  rw [hb2] at h1
  rw [scanAttached_append, hb1]
  exact ⟨h1, h2⟩

end ExtServo

namespace ExtServo

/-- Witness for C20: `begin` on a fresh channel, then a move, a poll after the
idle wait, and another move. -/
theorem idle_flag_mirrors_attachment_witness :
    fresh.get_idle_enable = true
    ∧ (∀ c ∈ [Call.write 0 100 0, Call.update 20000 false, Call.write 20001 50 0],
        c.isMotion = true)
    ∧ scanAttached false ((fresh.begin 50 0 180).2
          ++ (run (fresh.begin 50 0 180).1
              [Call.write 0 100 0, Call.update 20000 false, Call.write 20001 50 0]).2)
        = some (!(run (fresh.begin 50 0 180).1
              [Call.write 0 100 0, Call.update 20000 false, Call.write 20001 50 0]).1.get_idle) := by
  have hm : ∀ c ∈ [Call.write 0 100 0, Call.update 20000 false, Call.write 20001 50 0],
      c.isMotion = true := by
    intro c hc
    simp only [List.mem_cons, List.mem_singleton, List.not_mem_nil, or_false] at hc
    rcases hc with e | e | e <;> (rw [e]; rfl)
  exact ⟨by decide, hm,
    (idle_flag_mirrors_attachment fresh 50 0 180 _ false (by decide) hm).1⟩

end ExtServo
